/-
Verification development for the klisk repository (agent-project discovery,
registry, environment isolation, daemon supervision, file watching, and the
chat session handler).

Each Python function relevant to the frozen claims is shallowly embedded as an
executable Lean definition, translated from the source files:

  * src/klisk/core/registry.py    — ToolEntry, AgentEntry, ProjectSnapshot,
                                    AgentRegistry
  * src/klisk/core/discovery.py   — discover_project, discover_all_projects,
                                    _import_module_from_path, _SKIP_DIRS
  * src/klisk/core/primitives.py  — define_agent, tool, get_tools
  * src/klisk/core/env.py         — project_env_context, load_project_env
  * src/klisk/core/daemon.py      — read_pid_info, PidInfo
  * src/klisk/server/watcher.py   — start_watcher, _is_relevant
  * src/klisk/server/chat.py      — _build_content_parts, the hosted-tool
                                    deduplication logic of the chat handlers
  * src/agentkit/core/builtin_tools.py — builtin_tool_name

Python dicts are modelled as association lists with Python's assignment
semantics (update-in-place if the key exists, append otherwise); `os.environ`
is modelled as a total function `String → Option String`; Python object
identity (needed for the snapshot-copy claim) is modelled with an explicit
heap of entries addressed by natural-number references.
-/
import Mathlib

namespace Klisk

/-! ## Association lists with Python dict semantics -/

/-- Python dict lookup `d.get(key)` / `d[key]`: first (unique) matching key. -/
def dlookup {α : Type} : List (String × α) → String → Option α
  | [], _ => none
  | (k, v) :: d, key => if k = key then some v else dlookup d key

/-- Python dict assignment `d[k] = v`: replace in place if the key is present,
append at the end otherwise. -/
def dinsert {α : Type} : List (String × α) → String → α → List (String × α)
  | [], k, v => [(k, v)]
  | (k1, v1) :: d, k, v =>
      if k1 = k then (k1, v) :: d else (k1, v1) :: dinsert d k v

theorem dlookup_dinsert {α : Type} (d : List (String × α)) (k : String) (v : α)
    (key : String) :
    dlookup (dinsert d k v) key = if key = k then some v else dlookup d key := by
  induction d with
  | nil =>
      by_cases h : k = key
      · simp [dinsert, dlookup, h]
      · simp [dinsert, dlookup, h, Ne.symm h]
  | cons p d ih =>
      obtain ⟨k1, v1⟩ := p
      by_cases h1 : k1 = k
      · subst h1
        by_cases h : k1 = key
        · simp [dinsert, dlookup, h]
        · simp [dinsert, dlookup, h, Ne.symm h]
      · by_cases h2 : k1 = key
        · subst h2
          have hk : ¬ k1 = k := h1
          simp [dinsert, dlookup, hk, Ne.symm hk]
        · simp [dinsert, dlookup, h1, h2, ih]

theorem dlookup_mem {α : Type} {d : List (String × α)} {k : String} {v : α}
    (h : dlookup d k = some v) : (k, v) ∈ d := by
  induction d with
  | nil => simp [dlookup] at h
  | cons p d ih =>
      obtain ⟨k1, v1⟩ := p
      by_cases h1 : k1 = k
      · subst h1
        simp [dlookup] at h
        simp [h]
      · simp [dlookup, h1] at h
        exact List.mem_cons_of_mem _ (ih h)

theorem dlookup_eq_none {α : Type} {d : List (String × α)} {k : String}
    (h : ∀ p ∈ d, p.1 ≠ k) : dlookup d k = none := by
  induction d with
  | nil => rfl
  | cons p d ih =>
      obtain ⟨k1, v1⟩ := p
      have hk1 : k1 ≠ k := h (k1, v1) (List.mem_cons_self _ _)
      simp [dlookup, hk1]
      exact ih fun q hq => h q (List.mem_cons_of_mem _ hq)

/-- If `(k, v)` occurs in `d` and every pair in `d` with key `k` equals
`(k, v)`, then lookup finds exactly `v`. -/
theorem dlookup_eq_some_of_unique {α : Type} {d : List (String × α)} {k : String}
    {v : α} (hmem : (k, v) ∈ d) (huniq : ∀ p ∈ d, p.1 = k → p = (k, v)) :
    dlookup d k = some v := by
  induction d with
  | nil => simp at hmem
  | cons p d ih =>
      obtain ⟨k1, v1⟩ := p
      by_cases h1 : k1 = k
      · have := huniq (k1, v1) (List.mem_cons_self _ _) h1
        simp [dlookup, h1]
        exact (Prod.mk.injEq _ _ _ _ ▸ this).2
      · simp [dlookup, h1]
        rcases List.mem_cons.1 hmem with h | h
        · exact absurd (congrArg Prod.fst h).symm h1
        · exact ih h fun q hq => huniq q (List.mem_cons_of_mem _ hq)

/-- Folding Python dict assignments: lookup returns the value of the last
pair with the given key, falling back to the initial dict. -/
theorem dlookup_foldl_dinsert {α : Type} (pairs : List (String × α))
    (d : List (String × α)) (key : String) :
    dlookup (pairs.foldl (fun acc p => dinsert acc p.1 p.2) d) key =
      match pairs.reverse.find? (fun p => p.1 = key) with
      | some p => some p.2
      | none => dlookup d key := by
  induction pairs generalizing d with
  | nil => simp
  | cons p pairs ih =>
      obtain ⟨k, v⟩ := p
      simp only [List.foldl_cons, List.reverse_cons]
      rw [ih]
      rcases hfind : pairs.reverse.find? (fun q => q.1 = key) with _ | q
      · rw [List.find?_append, hfind]
        simp only [Option.none_orElse]
        by_cases h : k = key
        · subst h
          simp [List.find?, dlookup_dinsert]
        · have h' : key ≠ k := fun hh => h hh.symm
          simp [List.find?, h, dlookup_dinsert, h']
      · rw [List.find?_append, hfind]
        simp

/-- Values in a dict built by repeated assignment all come from the inserted
pairs or the initial dict. -/
theorem mem_dinsert {α : Type} {d : List (String × α)} {k : String} {v : α}
    {p : String × α} (h : p ∈ dinsert d k v) : p ∈ d ∨ p = (k, v) := by
  induction d with
  | nil => simp [dinsert] at h; right; exact h
  | cons q d ih =>
      obtain ⟨k1, v1⟩ := q
      by_cases h1 : k1 = k
      · rw [dinsert, if_pos h1] at h
        rcases List.mem_cons.1 h with h | h
        · right; rw [h, h1]
        · left; exact List.mem_cons_of_mem _ h
      · rw [dinsert, if_neg h1] at h
        rcases List.mem_cons.1 h with h | h
        · left; simp [h]
        · rcases ih h with h' | h'
          · left; exact List.mem_cons_of_mem _ h'
          · right; exact h'

theorem mem_foldl_dinsert {α : Type} {pairs : List (String × α)}
    {d : List (String × α)} {p : String × α}
    (h : p ∈ pairs.foldl (fun acc q => dinsert acc q.1 q.2) d) :
    p ∈ d ∨ p ∈ pairs := by
  induction pairs generalizing d with
  | nil => left; simpa using h
  | cons q pairs ih =>
      simp only [List.foldl_cons] at h
      rcases ih h with h' | h'
      · rcases mem_dinsert h' with h'' | h''
        · left; exact h''
        · right; simp [h'']
      · right; exact List.mem_cons_of_mem _ h'

/-- If some pair with key `k` was inserted, lookup after the fold succeeds. -/
theorem dlookup_foldl_isSome {α : Type} {pairs : List (String × α)}
    {d : List (String × α)} {k : String} {v : α} (hmem : (k, v) ∈ pairs) :
    (dlookup (pairs.foldl (fun acc p => dinsert acc p.1 p.2) d) k).isSome := by
  rw [dlookup_foldl_dinsert]
  rcases hfind : pairs.reverse.find? (fun p => p.1 = k) with _ | q
  · exfalso
    have := List.find?_eq_none.1 hfind (k, v) (List.mem_reverse.2 hmem)
    simp at this
  · rw [hfind]
    simp

/-! ## Data model (src/klisk/core/registry.py)

The opaque SDK handles (`function_tool`, `sdk_agent`) and the float
`temperature` field carry no information relevant to the claims and are
omitted; all other fields are kept. -/

/-- `ToolEntry` dataclass (registry.py lines 10-17). -/
structure ToolEntry where
  name : String
  description : String := ""
  source_file : Option String := none
  project : Option String := none
  deriving Repr, DecidableEq

/-- `AgentEntry` dataclass (registry.py lines 20-30). -/
structure AgentEntry where
  name : String
  instructions : Option String := none
  model : Option String := none
  tools : List String := []
  reasoning_effort : Option String := none
  source_file : Option String := none
  project : Option String := none
  deriving Repr, DecidableEq

/-- `ProjectSnapshot` dataclass (registry.py lines 33-37); the `config` dict
holds arbitrary metadata, modelled as a string-to-string dict. -/
structure ProjectSnapshot where
  agents : List (String × AgentEntry) := []
  tools : List (String × ToolEntry) := []
  config : List (String × String) := []
  deriving Repr, DecidableEq

/-- `AgentRegistry` (registry.py lines 68-110): the two mutable mappings of the
process-wide singleton. -/
structure AgentRegistry where
  agents : List (String × AgentEntry) := []
  tools : List (String × ToolEntry) := []
  deriving Repr, DecidableEq

namespace AgentRegistry

/-- `register_agent`: `self.agents[entry.name] = entry` (last write wins). -/
def register_agent (reg : AgentRegistry) (entry : AgentEntry) : AgentRegistry :=
  { reg with agents := dinsert reg.agents entry.name entry }

/-- `register_tool`: `self.tools[entry.name] = entry`. -/
def register_tool (reg : AgentRegistry) (entry : ToolEntry) : AgentRegistry :=
  { reg with tools := dinsert reg.tools entry.name entry }

/-- `get_agent`: `self.agents.get(name)`. -/
def get_agent (reg : AgentRegistry) (name : String) : Option AgentEntry :=
  dlookup reg.agents name

/-- `get_tool`: `self.tools.get(name)`. -/
def get_tool (reg : AgentRegistry) (name : String) : Option ToolEntry :=
  dlookup reg.tools name

/-- `get_project_snapshot`: a `ProjectSnapshot` built from copies
(`dict(self.agents)`, `dict(self.tools)`) of the internal mappings. -/
def get_project_snapshot (reg : AgentRegistry) : ProjectSnapshot :=
  { agents := reg.agents, tools := reg.tools }

/-- `clear`: `self.agents.clear(); self.tools.clear()`. -/
def clear (_reg : AgentRegistry) : AgentRegistry :=
  { agents := [], tools := [] }

end AgentRegistry

/-! ## Per-project environment isolation (src/klisk/core/env.py)

`os.environ` is modelled as a total map `Env : String → Option String`
(`none` = variable unset).  A project's cached `.env` dict is a list of
key/value pairs in dict iteration order. -/

/-- The global process environment. -/
def Env : Type := String → Option String

/-- `os.environ[k] = v`. -/
def envSet (env : Env) (k v : String) : Env :=
  fun x => if x = k then some v else env x

/-- `os.environ.pop(k, None)`. -/
def envPop (env : Env) (k : String) : Env :=
  fun x => if x = k then none else env x

/-- The module-level cache `_projectEnvs : dict[str, dict[str, str]]`. -/
def ProjectEnvs : Type := List (String × List (String × String))

/-- `get_project_env` (env.py lines 30-34): cached dict or empty. -/
def get_project_env (cache : ProjectEnvs) (project_name : String) :
    List (String × String) :=
  if project_name = "" then [] else (dlookup cache project_name).getD []

/-- The entry half of `project_env_context` (env.py lines 49-54): for each
cached `(key, value)` record `old_values[key] = os.environ.get(key)` and set
`os.environ[key] = value`, in dict order.  Returns the new environment and the
`old_values` dict. -/
def envApplyPhase (env : Env) :
    List (String × String) → Env × List (String × Option String)
  | [] => (env, [])
  | (k, v) :: rest =>
      let old := env k
      let (envF, olds) := envApplyPhase (envSet env k v) rest
      (envF, (k, old) :: olds)

/-- The `finally` half of `project_env_context` (env.py lines 58-64): for each
key of the cached dict, restore `old_values.get(key)`, popping the variable if
the recorded previous value was `None`. -/
def envRestorePhase : List (String × String) →
    List (String × Option String) → Env → Env
  | [], _, env => env
  | (k, _) :: rest, olds, env =>
      envRestorePhase rest olds
        (match dlookup olds k with
         | some (some prev) => envSet env k prev
         | _ => envPop env k)

/-- `project_env_context(project_name)` wrapped around a body.  The body is an
arbitrary transformation of the global environment: this covers both a normal
return and an exception escaping the `with` block, because the restore phase
runs in a `finally` clause either way. -/
def project_env_context (cache : ProjectEnvs) (project_name : String)
    (body : Env → Env) (env : Env) : Env :=
  let envVars := get_project_env cache project_name
  let (env1, olds) := envApplyPhase env envVars
  envRestorePhase envVars olds (body env1)

theorem envApplyPhase_not_mem (rest : List (String × String)) (e : Env)
    (k : String) (hk : k ∉ rest.map Prod.fst) :
    (envApplyPhase e rest).1 k = e k := by
  induction rest generalizing e with
  | nil => rfl
  | cons p rest ih =>
      obtain ⟨k0, v0⟩ := p
      simp only [List.map_cons, List.mem_cons] at hk
      push_neg at hk
      simp only [envApplyPhase]
      rw [ih _ hk.2]
      simp [envSet, hk.1]

theorem envApplyPhase_mem (envVars : List (String × String)) (env : Env)
    (hnd : (envVars.map Prod.fst).Nodup) (k v : String)
    (hmem : (k, v) ∈ envVars) :
    (envApplyPhase env envVars).1 k = some v := by
  induction envVars generalizing env with
  | nil => simp at hmem
  | cons p rest ih =>
      obtain ⟨k0, v0⟩ := p
      simp only [List.map_cons, List.nodup_cons] at hnd
      rcases List.mem_cons.1 hmem with h | h
      · obtain ⟨hk, hv⟩ := Prod.mk.injEq .. ▸ h
        subst hk; subst hv
        simp only [envApplyPhase]
        rw [envApplyPhase_not_mem _ _ _ hnd.1]
        simp [envSet]
      · exact ih (envSet env k0 v0) hnd.2 h

theorem envApplyPhase_olds (envVars : List (String × String)) (env : Env)
    (hnd : (envVars.map Prod.fst).Nodup) (k : String)
    (hk : k ∈ envVars.map Prod.fst) :
    dlookup (envApplyPhase env envVars).2 k = some (env k) := by
  induction envVars generalizing env with
  | nil => simp at hk
  | cons p rest ih =>
      obtain ⟨k0, v0⟩ := p
      simp only [List.map_cons, List.nodup_cons] at hnd
      simp only [envApplyPhase]
      by_cases h : k0 = k
      · subst h
        simp [dlookup]
      · simp only [List.map_cons, List.mem_cons] at hk
        rcases hk with hk | hk
        · exact absurd hk.symm h
        · simp only [dlookup, if_neg h]
          rw [ih (envSet env k0 v0) hnd.2 hk]
          simp [envSet, Ne.symm h]

theorem envRestorePhase_not_mem (envVars : List (String × String))
    (olds : List (String × Option String)) (env : Env) (k : String)
    (hk : k ∉ envVars.map Prod.fst) :
    envRestorePhase envVars olds env k = env k := by
  induction envVars generalizing env with
  | nil => rfl
  | cons p rest ih =>
      obtain ⟨k0, v0⟩ := p
      simp only [List.map_cons, List.mem_cons] at hk
      push_neg at hk
      simp only [envRestorePhase, List.foldl_cons] at *
      rw [ih _ hk.2]
      rcases dlookup olds k0 with _ | prev
      · simp [envPop, hk.1]
      · rcases prev with _ | val
        · simp [envPop, hk.1]
        · simp [envSet, hk.1]

theorem envRestorePhase_mem (envVars : List (String × String))
    (olds : List (String × Option String)) (env : Env) (k : String)
    (hk : k ∈ envVars.map Prod.fst) (hnd : (envVars.map Prod.fst).Nodup) :
    envRestorePhase envVars olds env k =
      match dlookup olds k with
      | some (some prev) => some prev
      | _ => none := by
  induction envVars generalizing env with
  | nil => simp at hk
  | cons p rest ih =>
      obtain ⟨k0, v0⟩ := p
      simp only [List.map_cons, List.nodup_cons] at hnd
      simp only [envRestorePhase, List.foldl_cons] at *
      by_cases h : k0 = k
      · subst h
        rw [envRestorePhase_not_mem _ _ _ _ hnd.1]
        rcases dlookup olds k0 with _ | prev
        · simp [envPop]
        · rcases prev with _ | val
          · simp [envPop]
          · simp [envSet]
      · simp only [List.map_cons, List.mem_cons] at hk
        rcases hk with hk | hk
        · exact absurd hk.symm h
        · exact ih _ hk hnd.2

/-! ## pathlib suffix semantics

CPython's `PurePath.suffix` of a name is `name[i:]` where `i = name.rfind('.')`
if `0 < i < len(name) - 1`, else the empty string; `with_suffix("")` removes
exactly that suffix.  Characters of a component are modelled as `List Char`. -/

/-- Index of the last `'.'` in a character list (`str.rfind('.')`). -/
def lastDotIdx : List Char → Option Nat
  | [] => none
  | c :: cs =>
      match lastDotIdx cs with
      | some i => some (i + 1)
      | none => if c = '.' then some 0 else none

/-- `PurePath(name).suffix` for a single path component. -/
def pathSuffix (cs : List Char) : List Char :=
  match lastDotIdx cs with
  | some i => if 0 < i ∧ i < cs.length - 1 then cs.drop i else []
  | none => []

/-- `path.with_suffix("")` applied to a single path component. -/
def withSuffixEmpty (cs : List Char) : List Char :=
  match lastDotIdx cs with
  | some i => if 0 < i ∧ i < cs.length - 1 then cs.take i else cs
  | none => cs

/-- `Path(p).suffix` for a path given as its components (`p.parts`). -/
def partsSuffix (parts : List String) : String :=
  match parts.getLast? with
  | some name => String.mk (pathSuffix name.data)
  | none => ""

/-- Python `str.startswith(prefix)`, modelled on the character lists so that
concrete instances evaluate inside the kernel. -/
def strStartsWith (s pre : String) : Bool :=
  pre.data.isPrefixOf s.data

/-! ## File watcher (src/klisk/server/watcher.py)

A changed path is given by its components (`Path(path).parts`). -/

/-- `_is_relevant` (watcher.py lines 36-42): reject a path any of whose
components is hidden, `__pycache__`, `node_modules` or `.venv`; otherwise
relevant iff the suffix is `.py`, `.yaml` or `.yml`. -/
def isRelevant (parts : List String) : Bool :=
  if parts.any (fun part =>
      strStartsWith part "." || part == "__pycache__" || part == "node_modules"
        || part == ".venv") then
    false
  else
    let sfx := partsSuffix parts
    sfx == ".py" || sfx == ".yaml" || sfx == ".yml"

/-- The body of `start_watcher`'s loop over one change batch (watcher.py lines
23-33): scan the changed paths, skipping irrelevant ones, breaking at the
first relevant `.py` file.  Returns `(py_changed, has_relevant)`. -/
def scanBatch : List (List String) → Bool × Bool
  | [] => (false, false)
  | path :: rest =>
      if isRelevant path then
        if partsSuffix path == ".py" then (true, true)
        else
          let pyRest := (scanBatch rest).1
          (pyRest, true)
      else scanBatch rest

/-- `start_watcher` invokes `on_change(py_changed)` iff the batch had a
relevant path; `batchCallbackArg` is `some py_changed` in that case. -/
def batchCallbackArg (changes : List (List String)) : Option Bool :=
  let r := scanBatch changes
  if r.2 then some r.1 else none

/-- `_SKIP_DIRS` from src/klisk/core/discovery.py line 17: directories inside
a project that are never treated as user source code. -/
def skipDirs : List String := ["venv", "env", "node_modules", "__pycache__"]

/-- The virtual-env directory names probed by `_activate_venv_packages`
(discovery.py line 22). -/
def venvDirNames : List String := [".venv", "venv"]

/-! ## Daemon PID files (src/klisk/core/daemon.py) -/

/-- `PidInfo` dataclass (daemon.py lines 25-39). -/
structure PidInfo where
  pid : Nat
  port : Nat
  project : String
  started_at : String
  cwd : String
  log_file : String := ""
  deriving Repr, DecidableEq

/-- The on-disk state of one identity's PID file: missing, unparsable JSON,
or a parsed record. -/
inductive PidFileState where
  | absent
  | corrupt
  | valid (info : PidInfo)
  deriving Repr, DecidableEq

/-- `read_pid_info` (daemon.py lines 83-105).  `alive` is `is_process_alive`;
the returned pair is (result, PID file state after the call).  A corrupt file
and a file whose recorded process is dead are both unlinked. -/
def read_pid_info (alive : Nat → Bool) : PidFileState → Option PidInfo × PidFileState
  | .absent => (none, .absent)
  | .corrupt => (none, .absent)
  | .valid info =>
      if alive info.pid then (some info, .valid info) else (none, .absent)

/-! ## Module loader naming (src/klisk/core/discovery.py lines 122-140)

`_import_module_from_path` derives
`"_klisk_." + str(rel.with_suffix("")).replace("/", ".").replace("\\", ".")`
from the path `rel` of the file relative to the project root.  A relative path
is modelled as its directory components plus the file name. -/

/-- The two `str.replace` calls: both are single-character replacements. -/
def dotifyChar (c : Char) : Char :=
  if c = '/' ∨ c = '\\' then '.' else c

/-- `"/".join` of path components (how `str()` renders a relative path). -/
def joinSep (sep : Char) : List (List Char) → List Char
  | [] => []
  | [x] => x
  | x :: y :: ys => x ++ sep :: joinSep sep (y :: ys)

/-- The synthetic module name derived by `_import_module_from_path` for the
file `dirs₀/…/dirsₙ/file` relative to the project root. -/
def moduleNameChars (dirs : List (List Char)) (file : List Char) : List Char :=
  "_klisk_.".data ++ (joinSep '/' (dirs ++ [withSuffixEmpty file])).map dotifyChar

/-- String-level wrapper for `moduleNameChars`. -/
def moduleName (dirs : List String) (file : String) : String :=
  String.mk (moduleNameChars (dirs.map String.data) file.data)

/-! ## Chat content building (src/klisk/server/chat.py lines 124-193) -/

/-- `ALLOWED_IMAGE_MIMES` (chat.py line 124). -/
def allowedImageMimes : List String :=
  ["image/jpeg", "image/png", "image/gif", "image/webp"]

/-- `ALLOWED_FILE_MIMES` (chat.py line 125). -/
def allowedFileMimes : List String := ["application/pdf"]

/-- `MAX_ATTACHMENT_SIZE` (chat.py line 126): 20 MiB. -/
def maxAttachmentSize : Nat := 20 * 1024 * 1024

/-- One inbound attachment dict; `att.get` defaults from chat.py lines 157-159. -/
structure Attachment where
  mime_type : String := ""
  data : String := ""
  name : String := "file"
  deriving Repr, DecidableEq

/-- One outgoing content part (the dict shapes built in chat.py lines 151-190). -/
inductive ContentPart where
  | text (s : String)                        -- ("type": "text")
  | inputText (s : String)                   -- ("type": "input_text")
  | imageUrl (url detail : String)           -- ("type": "image_url")
  | inputImage (url detail : String)         -- ("type": "input_image")
  | filePart (fileData filename : String)    -- ("type": "file")
  | inputFile (fileData filename : String)   -- ("type": "input_file")
  deriving Repr, DecidableEq

/-- The per-attachment body of the loop in `_build_content_parts` (chat.py
lines 156-191): `none` when the attachment is skipped (oversized base64 data
or unsupported MIME type), otherwise the single part appended for it. -/
def attachmentPart (litellm : Bool) (att : Attachment) : Option ContentPart :=
  if att.data.length > maxAttachmentSize * 4 / 3 then none
  else
    let dataUri := "data:" ++ att.mime_type ++ ";base64," ++ att.data
    if allowedImageMimes.contains att.mime_type then
      some (if litellm then .imageUrl dataUri "auto"
            else .inputImage dataUri "auto")
    else if allowedFileMimes.contains att.mime_type then
      some (if litellm then .filePart dataUri att.name
            else .inputFile dataUri att.name)
    else none

/-- `_build_content_parts(text, attachments, litellm=...)` (chat.py lines
136-193).  `Sum.inl` is the plain-string return, `Sum.inr` the parts list. -/
def buildContentParts (text : String) (attachments : Option (List Attachment))
    (litellm : Bool) : String ⊕ List ContentPart :=
  match attachments with
  | none => .inl text
  | some atts =>
      if atts.isEmpty then .inl text
      else
        let parts :=
          (if text ≠ "" then
            [if litellm then ContentPart.text text else ContentPart.inputText text]
           else [])
          ++ atts.filterMap (attachmentPart litellm)
        if parts.isEmpty then .inl text else .inr parts

/-! ## Hosted-tool deduplication in the chat handlers
(src/klisk/server/chat.py lines 281-367 and, identically, lines 462-540)

Stream events are modelled only as far as the handlers inspect them.  A
`ToolCallItem` whose `raw_item.type` is one of `_HOSTED_TOOL_NAMES`' keys takes
the hosted branch; `argsStr` stands for the result of `_extract_hosted_args`
and `output` for `_extract_hosted_output` on the raw item. -/

/-- `_HOSTED_TOOL_NAMES` (chat.py lines 16-21). -/
def hostedToolNames : List (String × String) :=
  [("web_search_call", "web_search"), ("file_search_call", "file_search"),
   ("code_interpreter_call", "code_interpreter"),
   ("image_generation_call", "image_generation")]

/-- A hosted `ToolCallItem` as the dedup logic sees it. -/
structure HostedItem where
  kind : String                 -- raw_item.type, a key of hostedToolNames
  id : Option String            -- raw_item.id (provider-issued item id)
  status : String               -- raw_item.status
  argsStr : String              -- _extract_hosted_args(raw_item, raw_type)
  output : String               -- _extract_hosted_output(raw_item, raw_type)
  deriving Repr, DecidableEq

/-- The stream events the handler loop dispatches on. -/
inductive StreamEvent where
  | textDelta (s : String)                 -- ResponseTextDeltaEvent
  | reasoningDelta (s : String)            -- ResponseReasoning*DeltaEvent
  | functionToolCall (name args : String)  -- ToolCallItem, raw type function_call
  | functionToolOutput (output : String)   -- ToolCallOutputItem
  | hostedToolCall (h : HostedItem)        -- ToolCallItem, hosted raw type
  deriving Repr, DecidableEq

/-- The events sent to the client during the streaming loop. -/
inductive ChatEvent where
  | token (s : String)
  | thinking (s : String)
  | toolCall (tool args status : String)
  | toolResult (output : String)
  deriving Repr, DecidableEq

/-- Python truthiness of `item_id` (`if item_id:`): non-`None` and non-empty. -/
def truthyId : Option String → Bool
  | none => false
  | some s => s ≠ ""

/-- One iteration of the streaming loop: given `seen_hosted_tools` and an
event, the updated dict and the events sent.  Faithful to chat.py lines
284-367. -/
def chatStep (seen : List (String × Bool)) :
    StreamEvent → List (String × Bool) × List ChatEvent
  | .textDelta s => (seen, if s ≠ "" then [.token s] else [])
  | .reasoningDelta s => (seen, if s ≠ "" then [.thinking s] else [])
  | .functionToolCall name args => (seen, [.toolCall name args "running"])
  | .functionToolOutput out => (seen, [.toolResult out])
  | .hostedToolCall h =>
      let emitted : Option Bool :=
        if truthyId h.id then dlookup seen (h.id.getD "") else none
      let isDone := h.status = "completed" || h.status = "failed"
      let toolName := (dlookup hostedToolNames h.kind).getD "tool"
      if emitted = some true then
        (seen, if isDone then [.toolResult h.output] else [])
      else if h.argsStr ≠ "" then
        let seen' :=
          if truthyId h.id then dinsert seen (h.id.getD "") true else seen
        (seen', [.toolCall toolName h.argsStr "running"]
                  ++ if isDone then [.toolResult h.output] else [])
      else
        (if truthyId h.id then dinsert seen (h.id.getD "") false else seen, [])

/-- Run the loop over a whole event stream, tagging every sent event with the
provider item id of the triggering stream event (`none` for non-hosted
events), starting from a given `seen_hosted_tools` dict. -/
def runChatStream (seen : List (String × Bool)) :
    List StreamEvent → List (Option String × ChatEvent)
  | [] => []
  | e :: rest =>
      let r := chatStep seen e
      let tag : Option String :=
        match e with
        | .hostedToolCall h => h.id
        | _ => none
      r.2.map (fun c => (tag, c)) ++ runChatStream r.1 rest

/-- The emissions of one chat turn (`seen_hosted_tools` starts empty,
chat.py line 282). -/
def chatTurnEmits (events : List StreamEvent) : List (Option String × ChatEvent) :=
  runChatStream [] events

/-- Is a sent event a `tool_call` message? -/
def isToolCallEvent : ChatEvent → Bool
  | .toolCall _ _ _ => true
  | _ => false

/-- Is a sent event a `tool_result` message? -/
def isToolResultEvent : ChatEvent → Bool
  | .toolResult _ => true
  | _ => false

/-- Number of `tool_call` events sent for hosted item id `s`. -/
def toolCallCount (emits : List (Option String × ChatEvent)) (s : String) : Nat :=
  (emits.filter (fun p => p.1 = some s && isToolCallEvent p.2)).length

/-- Number of `tool_result` events sent for hosted item id `s`. -/
def toolResultCount (emits : List (Option String × ChatEvent)) (s : String) : Nat :=
  (emits.filter (fun p => p.1 = some s && isToolResultEvent p.2)).length

/-- Whether a hosted status is terminal (`"completed"` or `"failed"`). -/
def isTerminalStatus (st : String) : Bool :=
  st = "completed" || st = "failed"

/-- Is a stream event a hosted tool call for id `s` carrying a terminal
status? -/
def isTerminalFor (s : String) : StreamEvent → Bool
  | .hostedToolCall h => h.id = some s && isTerminalStatus h.status
  | _ => false

/-- Number of stream events that are hosted tool calls for id `s` carrying a
terminal status. -/
def terminalEventCount (events : List StreamEvent) (s : String) : Nat :=
  (events.filter (isTerminalFor s)).length

/-! ## Discovery of a single project
(src/klisk/core/discovery.py lines 37-74, src/klisk/core/primitives.py)

Importing a user source file executes, in order, its top-level calls to the
two registration primitives.  A project is therefore modelled by the sequence
of registration commands its files execute when imported (non-entry files
first, then the entry file, discovery.py lines 61-64), plus the two
preconditions checked before any import (config parse, entry file present).
`sys.path` / `sys.modules` manipulation has no effect on the registry and is
not modelled here (the module-name derivation is modelled separately above). -/

/-- One top-level registration executed while importing a file:
  * `registerTool` — a `@tool`-decorated function (primitives.py lines
    147-201): wraps the function and registers a `ToolEntry` keyed by its name;
  * `defineAgent` — a `define_agent(...)` call (primitives.py lines 60-144)
    whose `tools=` argument is `get_tools(*toolRefs)` (the conventional path,
    primitives.py lines 167-188) and whose `builtin_tools=` argument is a list
    of builtin shortcuts contributing `"builtin:" + name` markers
    (builtin_tools.py lines 157-161). -/
inductive RegistrationCmd where
  | registerTool (entry : ToolEntry)
  | defineAgent (name : String) (instructions model : Option String)
      (toolRefs : List String) (builtins : List String)
  deriving Repr, DecidableEq

/-- `get_tools(*names)` (primitives.py lines 167-188): looks every name up in
the registry, raising `ValueError` on a miss; on success `define_agent`
records `t.name` of each returned `FunctionTool` (primitives.py lines 93-100),
which `_register_tool` set to the entry's name. -/
def get_tools (reg : AgentRegistry) :
    List String → Except String (List String)
  | [] => .ok []
  | n :: rest =>
      match reg.get_tool n with
      | none => .error ("Tool " ++ n ++ " not found.")
      | some entry =>
          match get_tools reg rest with
          | .error e => .error e
          | .ok others => .ok (entry.name :: others)

/-- `builtin_tool_name` (builtin_tools.py lines 157-161) applied to a string
shortcut. -/
def builtin_tool_name (bt : String) : String := "builtin:" ++ bt

/-- Execute one registration command against the registry. -/
def runCmd (reg : AgentRegistry) :
    RegistrationCmd → Except String AgentRegistry
  | .registerTool entry => .ok (reg.register_tool entry)
  | .defineAgent name instructions model toolRefs builtins =>
      match get_tools reg toolRefs with
      | .error e => .error e
      | .ok toolNames =>
          .ok (reg.register_agent
            { name := name
              instructions := instructions
              model := model
              tools := toolNames ++ builtins.map builtin_tool_name })

/-- Execute a command sequence; on an exception the registry keeps the state
reached so far (the import machinery does not roll back). -/
def runCmds (reg : AgentRegistry) :
    List RegistrationCmd → AgentRegistry × Option String
  | [] => (reg, none)
  | c :: rest =>
      match runCmd reg c with
      | .ok reg' => runCmds reg' rest
      | .error e => (reg, some e)

/-- The inputs `discover_project` reads from disk. -/
structure ProjectModel where
  configOk : Bool := true        -- ProjectConfig.load succeeds
  entryExists : Bool := true     -- (project_dir / config.entry).exists()
  cmds : List RegistrationCmd := []  -- registrations run by the imports
  config : List (String × String) := []  -- metadata attached to the snapshot
  deriving Repr, DecidableEq

/-- The errors `discover_project` can raise. -/
inductive DiscoveryError where
  | configError           -- ProjectConfig.load raised (before clearing)
  | entryNotFound         -- FileNotFoundError: entry point not found
  | importError (msg : String)  -- an import raised (ImportError, ValueError …)
  deriving Repr, DecidableEq

/-- `discover_project` (discovery.py lines 37-74) as a state transformer on
the process-wide registry: parse config, clear the registry, check the entry
file, run all imports, snapshot the registry and attach config metadata.
Returns the result together with the registry state after the call. -/
def discover_project (reg : AgentRegistry) (proj : ProjectModel) :
    Except DiscoveryError ProjectSnapshot × AgentRegistry :=
  if ¬ proj.configOk then (.error .configError, reg)
  else
    let reg := reg.clear
    if ¬ proj.entryExists then (.error .entryNotFound, reg)
    else
      match runCmds reg proj.cmds with
      | (reg', some e) => (.error (.importError e), reg')
      | (reg', none) =>
          (.ok { reg'.get_project_snapshot with config := proj.config }, reg')

/-! ## Workspace merge (src/klisk/core/discovery.py lines 143-209)

`discover_all_projects` iterates the workspace directory, discovers each
project (skipping failures), and merges the per-project snapshots.  The
filesystem iteration and per-project discovery are abstracted into the input:
the list of `(project_name, snapshot)` pairs that were successfully
discovered, in directory order.  The merge itself — project tagging, origin
counting, collision detection and renaming (lines 184-209) — is modelled
generically over the entry type, since agents and tools are treated
identically. -/

section Merge

variable {α : Type}

/-- `len(origins[n])`: how many entries across all projects have value-name
`n` (each project appends its name once per entry whose `.name` is `n`,
discovery.py lines 185-190). -/
def originCount (getName : α → String) (n : String) :
    List (String × List (String × α)) → Nat
  | [] => 0
  | (_, d) :: rest =>
      (d.filter (fun kv => getName kv.2 = n)).length
        + originCount getName n rest

/-- `n ∈ colliding_*`: the name is used in more than one entry across the
workspace (discovery.py lines 195-196). -/
def collidingName (getName : α → String) (ps : List (String × List (String × α)))
    (n : String) : Bool :=
  decide (2 ≤ originCount getName n ps)

/-- The `(key, renamed entry)` pairs produced by the merge loops (discovery.py
lines 199-207), in iteration order: a colliding dict key `k` of project `p`
becomes `p ++ "/" ++ k`, a non-colliding one stays bare; the entry's `.name`
is set to the key and (from the tagging loop, lines 185-190) its `.project`
to the project name. -/
def mergedPairs (getName : α → String) (retag : α → String → String → α)
    (ps : List (String × List (String × α))) : List (String × α) :=
  ps.flatMap (fun pd =>
    pd.2.map (fun kv =>
      let key := if collidingName getName ps kv.1
                 then pd.1 ++ "/" ++ kv.1 else kv.1
      (key, retag kv.2 key pd.1)))

/-- The merged dict: successive Python dict assignments
`merged.agents[key] = ae` / `merged.tools[key] = te`. -/
def mergeDict (getName : α → String) (retag : α → String → String → α)
    (ps : List (String × List (String × α))) : List (String × α) :=
  (mergedPairs getName retag ps).foldl (fun acc p => dinsert acc p.1 p.2) []

end Merge

/-- Renaming applied to an agent entry during the merge. -/
def retagAgent (ae : AgentEntry) (key project : String) : AgentEntry :=
  { ae with name := key, project := some project }

/-- Renaming applied to a tool entry during the merge. -/
def retagTool (te : ToolEntry) (key project : String) : ToolEntry :=
  { te with name := key, project := some project }

/-- The per-project agents dicts of a workspace, with their project names. -/
def agentDicts (ps : List (String × ProjectSnapshot)) :
    List (String × List (String × AgentEntry)) :=
  ps.map (fun p => (p.1, p.2.agents))

/-- The per-project tools dicts of a workspace, with their project names. -/
def toolDicts (ps : List (String × ProjectSnapshot)) :
    List (String × List (String × ToolEntry)) :=
  ps.map (fun p => (p.1, p.2.tools))

/-- `discover_all_projects` (discovery.py lines 143-209) restricted to its
merge phase, taking the successfully discovered `(project_name, snapshot)`
pairs in directory order.  The merged snapshot carries the workspace config
(line 157). -/
def discover_all_projects (ps : List (String × ProjectSnapshot)) :
    ProjectSnapshot :=
  { agents := mergeDict AgentEntry.name retagAgent (agentDicts ps)
    tools := mergeDict ToolEntry.name retagTool (toolDicts ps)
    config := [("name", "Klisk Workspace"), ("workspace", "True")] }

/-- The internal-consistency invariant claimed for snapshots: every tool name
referenced by an agent entry is either a key of the snapshot's tools mapping
or a `builtin:` marker. -/
def snapshotConsistent (snap : ProjectSnapshot) : Bool :=
  snap.agents.all (fun kv =>
    kv.2.tools.all (fun t =>
      (dlookup snap.tools t).isSome || strStartsWith t "builtin:"))

/-! ## Object identity and the snapshot copy (registry.py lines 95-99)

`get_project_snapshot` returns `ProjectSnapshot(agents=dict(self.agents),
tools=dict(self.tools))`: the two dicts are fresh copies, but the entry
objects they map to are shared with the registry.  To express this, entries
live on an explicit heap addressed by natural-number references; both the
registry's mappings and a returned snapshot's mappings map names to
references into that heap. -/

structure SharedWorld where
  heapAgents : List AgentEntry := []   -- Python AgentEntry objects, by address
  heapTools : List ToolEntry := []     -- Python ToolEntry objects, by address
  regAgents : List (String × Nat) := []   -- registry.agents (name → address)
  regTools : List (String × Nat) := []    -- registry.tools  (name → address)
  snapAgents : List (String × Nat) := []  -- a returned snapshot's agents dict
  snapTools : List (String × Nat) := []   -- a returned snapshot's tools dict
  deriving Repr, DecidableEq

/-- `snapshot = registry.get_project_snapshot()`: copies of the mappings, the
referenced entry objects shared. -/
def sharedGetProjectSnapshot (w : SharedWorld) : SharedWorld :=
  { w with snapAgents := w.regAgents, snapTools := w.regTools }

/-- `registry.get_agent(name)` as observed through the heap. -/
def sharedGetAgent (w : SharedWorld) (name : String) : Option AgentEntry :=
  (dlookup w.regAgents name).bind (fun r => w.heapAgents.get? r)

/-- `registry.get_tool(name)` as observed through the heap. -/
def sharedGetTool (w : SharedWorld) (name : String) : Option ToolEntry :=
  (dlookup w.regTools name).bind (fun r => w.heapTools.get? r)

/-- `snapshot.agents[k] = <entry at address r>`: adding or replacing an entry
in the returned snapshot's agents dict. -/
def snapInsertAgent (w : SharedWorld) (k : String) (r : Nat) : SharedWorld :=
  { w with snapAgents := dinsert w.snapAgents k r }

/-- `del snapshot.agents[k]` / `snapshot.agents.pop(k)`. -/
def snapRemoveAgent (w : SharedWorld) (k : String) : SharedWorld :=
  { w with snapAgents := w.snapAgents.filter (fun p => p.1 != k) }

/-- `snapshot.tools[k] = <entry at address r>`. -/
def snapInsertTool (w : SharedWorld) (k : String) (r : Nat) : SharedWorld :=
  { w with snapTools := dinsert w.snapTools k r }

/-- `del snapshot.tools[k]`. -/
def snapRemoveTool (w : SharedWorld) (k : String) : SharedWorld :=
  { w with snapTools := w.snapTools.filter (fun p => p.1 != k) }

/-- Mutating a field of the agent-entry object at address `r` (e.g.
`entry.instructions = ...` on an entry reached through the snapshot). -/
def mutateAgentObject (w : SharedWorld) (r : Nat) (e : AgentEntry) : SharedWorld :=
  { w with heapAgents := w.heapAgents.set r e }

/-! ## Claim C8 — stale PID cleanup -/

/-- C8: for every liveness predicate and PID file state, `read_pid_info`
returns `none` and deletes the file when the recorded process is dead, returns
the parsed record and keeps the file when it is alive, and never returns a
record whose process is not alive (a stale file is never surfaced as a
running daemon). -/
theorem c8_stale_pid_cleanup (alive : Nat → Bool) (info : PidInfo)
    (f : PidFileState) :
    (alive info.pid = false →
      read_pid_info alive (.valid info) = (none, .absent)) ∧
    (alive info.pid = true →
      read_pid_info alive (.valid info) = (some info, .valid info)) ∧
    (∀ i, (read_pid_info alive f).1 = some i →
      alive i.pid = true ∧ f = .valid i ∧ (read_pid_info alive f).2 = f) := by
  refine ⟨fun h => ?_, fun h => ?_, fun i hi => ?_⟩
  · simp [read_pid_info, h]
  · simp [read_pid_info, h]
  · cases f with
    | absent => simp [read_pid_info] at hi
    | corrupt => simp [read_pid_info] at hi
    | valid j =>
        by_cases hj : alive j.pid
        · simp [read_pid_info, hj] at hi
          subst hi
          exact ⟨hj, rfl, by simp [read_pid_info, hj]⟩
        · simp [read_pid_info, hj] at hi

/-- Witness for C8 at a concrete input: pid 3 is dead under the concrete
liveness predicate, so the stale file is removed and `none` returned. -/
theorem c8_stale_pid_cleanup_witness :
    ((fun p : Nat => decide (p = 5)) 3 = false) ∧
    read_pid_info (fun p : Nat => decide (p = 5))
        (.valid { pid := 3, port := 4173, project := "demo",
                  started_at := "2025-01-01T00:00:00+00:00", cwd := "/w" }) =
      (none, .absent) :=
  ⟨by decide,
   (c8_stale_pid_cleanup (fun p : Nat => decide (p = 5))
      { pid := 3, port := 4173, project := "demo",
        started_at := "2025-01-01T00:00:00+00:00", cwd := "/w" }
      .absent).1 (by decide)⟩

/-! ## Claim C9 — registry cleared before the entry-file check -/

/-- C9: if the project config parses but the entry file is missing,
`discover_project` fails with the entry-not-found error and leaves the
process-wide registry empty: it was cleared before the check, so any
previously registered agents and tools are discarded. -/
theorem c9_registry_cleared_on_missing_entry (reg : AgentRegistry)
    (proj : ProjectModel) (hc : proj.configOk = true)
    (he : proj.entryExists = false) :
    discover_project reg proj =
      (.error .entryNotFound, { agents := [], tools := [] }) ∧
    (discover_project reg proj).2.agents = [] ∧
    (discover_project reg proj).2.tools = [] := by
  have h : discover_project reg proj =
      (.error .entryNotFound, { agents := [], tools := [] }) := by
    simp [discover_project, hc, he, AgentRegistry.clear]
  exact ⟨h, by rw [h], by rw [h]⟩

/-- Witness for C9: a registry holding a previously discovered agent and tool
is emptied by a failed discovery of a project with a missing entry file. -/
theorem c9_registry_cleared_on_missing_entry_witness :
    ({ configOk := true, entryExists := false : ProjectModel }.configOk = true
      ∧ { configOk := true, entryExists := false : ProjectModel }.entryExists
          = false) ∧
    discover_project
        { agents := [("Old", { name := "Old" })],
          tools := [("t", { name := "t" })] }
        { configOk := true, entryExists := false } =
      (.error .entryNotFound, { agents := [], tools := [] }) :=
  ⟨⟨rfl, rfl⟩,
   (c9_registry_cleared_on_missing_entry
      { agents := [("Old", { name := "Old" })],
        tools := [("t", { name := "t" })] }
      { configOk := true, entryExists := false } rfl rfl).1⟩

/-! ## Claim C6 — snapshot copies and shared entry objects -/

/-- C6 (amended): adding, removing or replacing entries in the mappings of a
snapshot returned by `get_project_snapshot` never changes what the registry's
`get_agent` / `get_tool` observe, because the snapshot holds fresh copies of
the two dicts. -/
theorem c6_snapshot_copy_isolated (w : SharedWorld) (k : String) (r : Nat)
    (n : String) :
    sharedGetAgent (snapInsertAgent w k r) n = sharedGetAgent w n ∧
    sharedGetAgent (snapRemoveAgent w k) n = sharedGetAgent w n ∧
    sharedGetAgent (snapInsertTool w k r) n = sharedGetAgent w n ∧
    sharedGetTool (snapInsertTool w k r) n = sharedGetTool w n ∧
    sharedGetTool (snapRemoveTool w k) n = sharedGetTool w n ∧
    sharedGetTool (snapInsertAgent w k r) n = sharedGetTool w n :=
  ⟨rfl, rfl, rfl, rfl, rfl, rfl⟩

/-- Concrete world refuting C6 as stated: the snapshot's dicts are shallow
copies, so the entry object for `"A"` is shared between the snapshot and the
registry. -/
def c6World : SharedWorld :=
  sharedGetProjectSnapshot
    { heapAgents := [{ name := "A" }], heapTools := [],
      regAgents := [("A", 0)], regTools := [],
      snapAgents := [], snapTools := [] }

/-- C6 counterexample: the address 0 is reachable from the returned
snapshot's agents dict, yet mutating the fields of the entry object at that
address changes what `get_agent` observes — the claim's "mutating the fields
of an entry reachable from it" case fails. -/
theorem c6_counterexample :
    dlookup c6World.snapAgents "A" = some 0 ∧
    sharedGetAgent
        (mutateAgentObject c6World 0
          { name := "A", instructions := some "mutated" }) "A" ≠
      sharedGetAgent c6World "A" := by
  constructor
  · rfl
  · decide

/-! ## Claim C3 — environment isolation by project_env_context -/

/-- C3: for every cached project environment (with dict keys, hence without
duplicates), every prior process environment and every behaviour of the
wrapped body — normal return or exception, both running the `finally`
restore — `project_env_context` restores every cached variable to exactly its
prior value (including unset), and inside the block every cached variable is
visible in the global environment with the project's value. -/
theorem c3_project_env_context (cache : ProjectEnvs) (name : String)
    (body : Env → Env) (env : Env)
    (hnd : ((get_project_env cache name).map Prod.fst).Nodup) :
    (∀ k, k ∈ (get_project_env cache name).map Prod.fst →
      project_env_context cache name body env k = env k) ∧
    (∀ k v, (k, v) ∈ get_project_env cache name →
      (envApplyPhase env (get_project_env cache name)).1 k = some v) := by
  constructor
  · intro k hk
    have hrestore := envRestorePhase_mem (get_project_env cache name)
      (envApplyPhase env (get_project_env cache name)).2
      (body (envApplyPhase env (get_project_env cache name)).1) k hk hnd
    have holds := envApplyPhase_olds (get_project_env cache name) env hnd k hk
    show envRestorePhase _ _ _ k = env k
    rw [hrestore, holds]
    cases env k <;> rfl
  · intro k v hv
    exact envApplyPhase_mem _ env hnd k v hv

/-- Witness for C3: project `p1` caches `API_KEY=secret`; before entry the
global value is `old` and the body even clobbers the variable, yet after exit
the variable is back to `old`, and inside the block it reads `secret`. -/
theorem c3_project_env_context_witness :
    ((get_project_env [("p1", [("API_KEY", "secret")])] "p1").map
        Prod.fst).Nodup ∧
    "API_KEY" ∈ (get_project_env [("p1", [("API_KEY", "secret")])] "p1").map
        Prod.fst ∧
    ("API_KEY", "secret") ∈ get_project_env [("p1", [("API_KEY", "secret")])] "p1" ∧
    project_env_context [("p1", [("API_KEY", "secret")])] "p1"
        (fun e => envSet e "API_KEY" "clobbered")
        (fun k => if k = "API_KEY" then some "old" else none) "API_KEY" =
      (fun k : String => if k = "API_KEY" then some "old" else none) "API_KEY" ∧
    (envApplyPhase (fun k => if k = "API_KEY" then some "old" else none)
        (get_project_env [("p1", [("API_KEY", "secret")])] "p1")).1 "API_KEY" =
      some "secret" := by
  refine ⟨by decide, by decide, by decide, ?_, ?_⟩
  · exact (c3_project_env_context [("p1", [("API_KEY", "secret")])] "p1"
      (fun e => envSet e "API_KEY" "clobbered")
      (fun k => if k = "API_KEY" then some "old" else none) (by decide)).1
      "API_KEY" (by decide)
  · exact (c3_project_env_context [("p1", [("API_KEY", "secret")])] "p1"
      (fun e => envSet e "API_KEY" "clobbered")
      (fun k => if k = "API_KEY" then some "old" else none) (by decide)).2
      "API_KEY" "secret" (by decide)

/-! ## Claim C7 — watcher filtering -/

/-- The component test actually applied by `_is_relevant` (watcher.py line
40): hidden names, `__pycache__`, `node_modules`, `.venv`. -/
def filteredComponent (part : String) : Bool :=
  strStartsWith part "." || part == "__pycache__" || part == "node_modules"
    || part == ".venv"

theorem isRelevant_eq_false_of_filtered {path : List String}
    (h : ∃ part ∈ path, filteredComponent part = true) :
    isRelevant path = false := by
  obtain ⟨part, hmem, hf⟩ := h
  have : path.any (fun part =>
      strStartsWith part "." || part == "__pycache__" || part == "node_modules"
        || part == ".venv") = true :=
    List.any_eq_true.2 ⟨part, hmem, hf⟩
  simp [isRelevant, this]

theorem scanBatch_all_irrelevant {changes : List (List String)}
    (h : ∀ path ∈ changes, isRelevant path = false) :
    scanBatch changes = (false, false) := by
  induction changes with
  | nil => rfl
  | cons path rest ih =>
      have hpath := h path (List.mem_cons_self _ _)
      have := ih fun q hq => h q (List.mem_cons_of_mem _ hq)
      simp [scanBatch, hpath, this]

/-- C7 (amended): a changed path one of whose components is hidden (leading
dot — which covers `.venv` and every other hidden directory), `__pycache__`
or `node_modules` is classified irrelevant and never contributes to the
`on_change` callback; a batch consisting only of such paths triggers no
callback.  (Weakened from the claim: paths under the non-hidden dependency
directories `venv` and `env` are NOT filtered, see the counterexample.) -/
theorem c7_watcher_filtering (changes : List (List String))
    (h : ∀ path ∈ changes, ∃ part ∈ path, filteredComponent part = true) :
    batchCallbackArg changes = none ∧
    ∀ path ∈ changes, isRelevant path = false := by
  have hall : ∀ path ∈ changes, isRelevant path = false :=
    fun path hp => isRelevant_eq_false_of_filtered (h path hp)
  refine ⟨?_, hall⟩
  simp [batchCallbackArg, scanBatch_all_irrelevant hall]

/-- Witness for C7 at a concrete batch of hidden and cache directory paths. -/
theorem c7_watcher_filtering_witness :
    (∀ path ∈ [[".git", "x.py"], ["a", "__pycache__", "b.py"],
               ["a", "node_modules", "c.yaml"]],
      ∃ part ∈ path, filteredComponent part = true) ∧
    batchCallbackArg [[".git", "x.py"], ["a", "__pycache__", "b.py"],
                      ["a", "node_modules", "c.yaml"]] = none :=
  ⟨by decide,
   (c7_watcher_filtering [[".git", "x.py"], ["a", "__pycache__", "b.py"],
      ["a", "node_modules", "c.yaml"]] (by decide)).1⟩

/-- C7 counterexample: `venv` is one of the repository's own
dependency-environment directory names (`_SKIP_DIRS` in discovery.py, and a
probed virtual-env directory of `_activate_venv_packages`), yet a changed
`.py` file under `venv/` is classified relevant by `_is_relevant` and a batch
containing only that path does invoke the callback (with a full reload). -/
theorem c7_counterexample :
    "venv" ∈ skipDirs ∧ "venv" ∈ venvDirNames ∧
    isRelevant ["proj", "venv", "lib", "foo.py"] = true ∧
    batchCallbackArg [["proj", "venv", "lib", "foo.py"]] = some true := by
  refine ⟨by decide, by decide, by decide, by decide⟩

/-! ## Claim C10 — attachment filtering in _build_content_parts -/

/-- C10: with no attachments (absent or empty list) the plain text is
returned as-is; an attachment whose base64 data exceeds 4/3 of 20 MiB, or
whose MIME type is neither an allowed image type nor `application/pdf`,
contributes no content part (it is silently dropped, leaving the result of
the surrounding call unchanged); and when every attachment is dropped and no
text part was added (empty text), the plain text comes back unchanged. -/
theorem c10_build_content_parts :
    (∀ text litellm, buildContentParts text none litellm = .inl text ∧
      buildContentParts text (some []) litellm = .inl text) ∧
    (∀ litellm att,
      (att.data.length > maxAttachmentSize * 4 / 3 ∨
        (allowedImageMimes.contains att.mime_type = false ∧
         allowedFileMimes.contains att.mime_type = false)) →
      attachmentPart litellm att = none) ∧
    (∀ text litellm pre att post,
      attachmentPart litellm att = none → pre ++ post ≠ [] →
      buildContentParts text (some (pre ++ att :: post)) litellm =
        buildContentParts text (some (pre ++ post)) litellm) ∧
    (∀ litellm atts, atts ≠ [] → (∀ a ∈ atts, attachmentPart litellm a = none) →
      buildContentParts "" (some atts) litellm = .inl "") := by
  refine ⟨fun text litellm => ⟨rfl, rfl⟩, ?_, ?_, ?_⟩
  · intro litellm att h
    by_cases hs : att.data.length > maxAttachmentSize * 4 / 3
    · simp [attachmentPart, hs]
    · rcases h with h | ⟨h1, h2⟩
      · exact absurd h hs
      · have h1' : att.mime_type ∉ allowedImageMimes := by simpa using h1
        have h2' : att.mime_type ∉ allowedFileMimes := by simpa using h2
        rw [attachmentPart, if_neg hs]
        simp [h1', h2']
  · intro text litellm pre att post hnone hne
    have h1 : (pre ++ att :: post).isEmpty = false := by
      cases pre <;> simp
    have h2 : (pre ++ post).isEmpty = false := by
      cases hpre : pre ++ post with
      | nil => exact absurd hpre hne
      | cons a l => simp
    have hfm : (pre ++ att :: post).filterMap (attachmentPart litellm) =
        (pre ++ post).filterMap (attachmentPart litellm) := by
      rw [List.filterMap_append, List.filterMap_append, List.filterMap_cons,
        hnone]
    simp only [buildContentParts, h1, h2, hfm]
  · intro litellm atts hne hall
    have h1 : atts.isEmpty = false := by
      cases atts with
      | nil => exact absurd rfl hne
      | cons a l => simp
    have hfm : atts.filterMap (attachmentPart litellm) = [] :=
      List.filterMap_eq_nil_iff.2 hall
    simp [buildContentParts, h1, hfm]

/-- Witness for C10: a `text/plain` attachment is dropped, and a message with
empty text whose only attachment is dropped comes back as the plain (empty)
text. -/
theorem c10_build_content_parts_witness :
    (allowedImageMimes.contains "text/plain" = false ∧
     allowedFileMimes.contains "text/plain" = false) ∧
    attachmentPart false { mime_type := "text/plain", data := "eHg=" } = none ∧
    buildContentParts ""
        (some [{ mime_type := "text/plain", data := "eHg=" }]) false =
      .inl "" := by
  refine ⟨by decide, ?_, ?_⟩
  · exact c10_build_content_parts.2.1 false
      { mime_type := "text/plain", data := "eHg=" } (Or.inr (by decide))
  · exact c10_build_content_parts.2.2.2 false
      [{ mime_type := "text/plain", data := "eHg=" }] (by decide)
      (fun a ha => by
        rw [List.mem_singleton] at ha
        rw [ha]
        exact c10_build_content_parts.2.1 false
          { mime_type := "text/plain", data := "eHg=" } (Or.inr (by decide)))

/-! ## Claim C5 — module-name derivation -/

theorem joinSep_single (sep : Char) (x : List Char) : joinSep sep [x] = x := rfl

theorem joinSep_cons2 (sep : Char) (x y : List Char) (ys : List (List Char)) :
    joinSep sep (x :: y :: ys) = x ++ sep :: joinSep sep (y :: ys) := rfl

theorem joinSep_ne_nil (sep : Char) :
    ∀ l : List (List Char), l ≠ [] → (∀ s ∈ l, s ≠ []) → joinSep sep l ≠ []
  | [], hne, _ => absurd rfl hne
  | [x], _, h => by simpa [joinSep_single] using h x (by simp)
  | x :: y :: ys, _, _ => by
      rw [joinSep_cons2]
      intro hc
      exact List.cons_ne_nil _ _ (List.append_eq_nil.1 hc).2

/-- Splitting at the first separator: if neither prefix contains the
separator, equal joins force equal halves. -/
theorem append_sep_inj {sep : Char} :
    ∀ {a1 : List Char} {a2 b1 b2 : List Char}, sep ∉ a1 → sep ∉ a2 →
      a1 ++ sep :: b1 = a2 ++ sep :: b2 → a1 = a2 ∧ b1 = b2 := by
  intro a1
  induction a1 with
  | nil =>
      intro a2 b1 b2 _ h2 heq
      cases a2 with
      | nil => simpa using heq
      | cons c a2 =>
          rw [List.nil_append, List.cons_append] at heq
          have hc := (List.cons.injEq _ _ _ _ ▸ heq).1
          exact absurd (show sep ∈ c :: a2 by
            rw [← hc]; exact List.mem_cons_self _ _) h2
  | cons c a1 ih =>
      intro a2 b1 b2 h1 h2 heq
      cases a2 with
      | nil =>
          rw [List.cons_append, List.nil_append] at heq
          have hc := (List.cons.injEq _ _ _ _ ▸ heq).1
          exact absurd (show sep ∈ c :: a1 by
            rw [hc]; exact List.mem_cons_self _ _) h1
      | cons d a2 =>
          rw [List.cons_append, List.cons_append] at heq
          have hcd := (List.cons.injEq _ _ _ _ ▸ heq).1
          have htl := (List.cons.injEq _ _ _ _ ▸ heq).2
          have h1' : sep ∉ a1 := fun hs => h1 (List.mem_cons_of_mem _ hs)
          have h2' : sep ∉ a2 := fun hs => h2 (List.mem_cons_of_mem _ hs)
          obtain ⟨ha, hb⟩ := ih h1' h2' htl
          exact ⟨by rw [hcd, ha], hb⟩

theorem joinSep_inj (sep : Char) :
    ∀ (l1 l2 : List (List Char)),
      (∀ s ∈ l1, s ≠ [] ∧ sep ∉ s) → (∀ s ∈ l2, s ≠ [] ∧ sep ∉ s) →
      joinSep sep l1 = joinSep sep l2 → l1 = l2
  | [], [], _, _, _ => rfl
  | [], x :: xs, _, h2, heq =>
      absurd heq.symm
        (joinSep_ne_nil sep (x :: xs) (List.cons_ne_nil _ _)
          fun s hs => (h2 s hs).1)
  | x :: xs, [], h1, _, heq =>
      absurd heq
        (joinSep_ne_nil sep (x :: xs) (List.cons_ne_nil _ _)
          fun s hs => (h1 s hs).1)
  | [x], [y], _, _, heq => by
      rw [joinSep_single, joinSep_single] at heq
      rw [heq]
  | [x], y :: z :: zs, h1, h2, heq => by
      exfalso
      rw [joinSep_single, joinSep_cons2] at heq
      exact (h1 x (by simp)).2
        (heq ▸ List.mem_append_right y (List.mem_cons_self _ _))
  | x :: x' :: xs, [y], h1, h2, heq => by
      exfalso
      rw [joinSep_single, joinSep_cons2] at heq
      exact (h2 y (by simp)).2
        (heq ▸ List.mem_append_right x (List.mem_cons_self _ _))
  | x :: x' :: xs, y :: z :: zs, h1, h2, heq => by
      rw [joinSep_cons2, joinSep_cons2] at heq
      obtain ⟨hxy, hrest⟩ :=
        append_sep_inj (h1 x (by simp)).2 (h2 y (by simp)).2 heq
      have := joinSep_inj sep (x' :: xs) (z :: zs)
        (fun s hs => h1 s (List.mem_cons_of_mem _ hs))
        (fun s hs => h2 s (List.mem_cons_of_mem _ hs)) hrest
      rw [hxy, this]

theorem map_joinSep (f : Char → Char) (sep : Char) :
    ∀ l : List (List Char),
      (joinSep sep l).map f = joinSep (f sep) (l.map (fun s => s.map f))
  | [] => rfl
  | [x] => rfl
  | x :: y :: ys => by
      rw [joinSep_cons2, List.map_append, List.map_cons,
        map_joinSep f sep (y :: ys)]
      simp [joinSep_cons2]

theorem map_dotify_id {s : List Char} (h1 : '/' ∉ s) (h2 : '\\' ∉ s) :
    s.map dotifyChar = s := by
  induction s with
  | nil => rfl
  | cons c cs ih =>
      have hc1 : c ≠ '/' := fun hh => h1 (hh ▸ List.mem_cons_self _ _)
      have hc2 : c ≠ '\\' := fun hh => h2 (hh ▸ List.mem_cons_self _ _)
      rw [List.map_cons,
        ih (fun hs => h1 (List.mem_cons_of_mem _ hs))
           (fun hs => h2 (List.mem_cons_of_mem _ hs))]
      simp [dotifyChar, hc1, hc2]

theorem lastDotIdx_append_py (stem : List Char) (h : '.' ∉ stem) :
    lastDotIdx (stem ++ ['.', 'p', 'y']) = some stem.length := by
  induction stem with
  | nil => rfl
  | cons c cs ih =>
      have hc : c ≠ '.' := fun hh => h (hh ▸ List.mem_cons_self _ _)
      have := ih fun hs => h (List.mem_cons_of_mem _ hs)
      simp [lastDotIdx, this]

theorem withSuffixEmpty_py (stem : List Char) (hne : stem ≠ [])
    (h : '.' ∉ stem) : withSuffixEmpty (stem ++ ['.', 'p', 'y']) = stem := by
  have hlen : 0 < stem.length := List.length_pos.2 hne
  rw [withSuffixEmpty, lastDotIdx_append_py stem h]
  have hcond : 0 < stem.length ∧
      stem.length < (stem ++ ['.', 'p', 'y']).length - 1 := by
    simp only [List.length_append, List.length_cons, List.length_nil]
    omega
  show (if 0 < stem.length ∧ stem.length < (stem ++ ['.', 'p', 'y']).length - 1
        then List.take stem.length (stem ++ ['.', 'p', 'y'])
        else stem ++ ['.', 'p', 'y']) = stem
  rw [if_pos hcond]
  exact List.take_left stem _

/-- A path component with no forbidden characters: nonempty and free of the
dot, slash and backslash characters that the module-name derivation folds
together. -/
def cleanComponent (s : String) : Prop :=
  s.data ≠ [] ∧ '.' ∉ s.data ∧ '/' ∉ s.data ∧ '\\' ∉ s.data

instance (s : String) : Decidable (cleanComponent s) := by
  unfold cleanComponent
  infer_instance

theorem string_data_inj {s t : String} (h : s.data = t.data) : s = t := by
  cases s; cases t; exact congrArg String.mk h

theorem map_string_data_inj {l1 l2 : List String}
    (h : l1.map String.data = l2.map String.data) : l1 = l2 := by
  induction l1 generalizing l2 with
  | nil => cases l2 with
    | nil => rfl
    | cons y ys => simp at h
  | cons x xs ih =>
      cases l2 with
      | nil => simp at h
      | cons y ys =>
          simp only [List.map_cons, List.cons.injEq] at h
          rw [string_data_inj h.1, ih h.2]

/-- C5 (amended): the derived module names of two `.py` files are distinct
whenever the files are distinct and all path components (directories and the
file stem) avoid `.`, `/` and `\` — in particular same-named files in
different subdirectories never collide.  (Weakened from the claim: for
components containing dots the derivation is not injective, see the
counterexample.) -/
theorem c5_module_name_injective (dirs1 dirs2 : List String)
    (stem1 stem2 : String)
    (h1 : ∀ d ∈ dirs1, cleanComponent d) (h2 : ∀ d ∈ dirs2, cleanComponent d)
    (h3 : cleanComponent stem1) (h4 : cleanComponent stem2)
    (hne : (dirs1, stem1) ≠ (dirs2, stem2)) :
    moduleName dirs1 (stem1 ++ ".py") ≠ moduleName dirs2 (stem2 ++ ".py") := by
  intro heq
  apply hne
  have hdata : moduleNameChars (dirs1.map String.data) (stem1 ++ ".py").data =
      moduleNameChars (dirs2.map String.data) (stem2 ++ ".py").data := by
    have := congrArg String.data heq
    simpa [moduleName] using this
  rw [moduleNameChars, moduleNameChars] at hdata
  have hA := List.append_cancel_left hdata
  have hpy : (".py" : String).data = ['.', 'p', 'y'] := rfl
  have hs1 : (stem1 ++ ".py").data = stem1.data ++ ['.', 'p', 'y'] := by
    rw [String.data_append, hpy]
  have hs2 : (stem2 ++ ".py").data = stem2.data ++ ['.', 'p', 'y'] := by
    rw [String.data_append, hpy]
  rw [hs1, hs2, withSuffixEmpty_py stem1.data h3.1 h3.2.1,
    withSuffixEmpty_py stem2.data h4.1 h4.2.1] at hA
  rw [map_joinSep, map_joinSep] at hA
  have hdot : dotifyChar '/' = '.' := rfl
  rw [hdot] at hA
  have hmapid : ∀ (l : List String), (∀ d ∈ l, cleanComponent d) →
      ∀ stem : String, cleanComponent stem →
      ((l.map String.data ++ [stem.data]).map (fun s => s.map dotifyChar)) =
        l.map String.data ++ [stem.data] := by
    intro l hl stem hstem
    apply List.map_congr_left ?_ |>.trans (List.map_id _)
    intro s hs
    rcases List.mem_append.1 hs with hs | hs
    · obtain ⟨d, hd, rfl⟩ := List.mem_map.1 hs
      exact map_dotify_id (hl d hd).2.2.1 (hl d hd).2.2.2
    · rw [List.mem_singleton.1 hs]
      exact map_dotify_id hstem.2.2.1 hstem.2.2.2
  rw [hmapid dirs1 h1 stem1 h3, hmapid dirs2 h2 stem2 h4] at hA
  have hclean : ∀ (l : List String), (∀ d ∈ l, cleanComponent d) →
      ∀ stem : String, cleanComponent stem →
      ∀ s ∈ l.map String.data ++ [stem.data], s ≠ [] ∧ '.' ∉ s := by
    intro l hl stem hstem s hs
    rcases List.mem_append.1 hs with hs | hs
    · obtain ⟨d, hd, rfl⟩ := List.mem_map.1 hs
      exact ⟨(hl d hd).1, (hl d hd).2.1⟩
    · rw [List.mem_singleton.1 hs]
      exact ⟨hstem.1, hstem.2.1⟩
  have hlists := joinSep_inj '.' _ _
    (hclean dirs1 h1 stem1 h3) (hclean dirs2 h2 stem2 h4) hA
  have := congrArg List.reverse hlists
  simp only [List.reverse_append, List.reverse_cons, List.reverse_nil,
    List.nil_append, List.singleton_append, List.cons.injEq] at this
  have hstems : stem1 = stem2 := string_data_inj this.1
  have hdirs : dirs1 = dirs2 :=
    map_string_data_inj (List.reverse_injective this.2)
  rw [hstems, hdirs]

/-- Witness for C5: two same-named files `x/t.py` and `y/t.py` in different
subdirectories get distinct module names. -/
theorem c5_module_name_injective_witness :
    ((∀ d ∈ ["x"], cleanComponent d) ∧ (∀ d ∈ ["y"], cleanComponent d) ∧
      cleanComponent "t" ∧ ((["x"], "t") ≠ (["y"], ("t" : String)))) ∧
    moduleName ["x"] ("t" ++ ".py") ≠ moduleName ["y"] ("t" ++ ".py") :=
  ⟨⟨by decide, by decide, by decide, by decide⟩,
   c5_module_name_injective ["x"] ["y"] "t" "t" (by decide) (by decide)
     (by decide) (by decide) (by decide)⟩

/-- C5 counterexample: the distinct project-relative paths `a/b.py` and
`a.b.py` derive the same synthetic module name `_klisk_.a.b`, so the
derivation is not injective on distinct file paths. -/
theorem c5_counterexample :
    moduleName ["a"] "b.py" = moduleName [] "a.b.py" ∧
    (["a"], "b.py") ≠ (([] : List String), "a.b.py") := by
  constructor
  · rfl
  · decide

/-! ## Claim C4 — hosted-tool deduplication -/

/-- The provider item id a sent event is attributed to. -/
def tagOf : StreamEvent → Option String
  | .hostedToolCall h => h.id
  | _ => none

theorem toolCallCount_append (a b : List (Option String × ChatEvent))
    (s : String) :
    toolCallCount (a ++ b) s = toolCallCount a s + toolCallCount b s := by
  simp [toolCallCount, List.filter_append]

theorem toolResultCount_append (a b : List (Option String × ChatEvent))
    (s : String) :
    toolResultCount (a ++ b) s = toolResultCount a s + toolResultCount b s := by
  simp [toolResultCount, List.filter_append]

theorem toolCallCount_map_tag_ne (l : List ChatEvent) {t : Option String}
    {s : String} (ht : t ≠ some s) :
    toolCallCount (l.map (fun c => (t, c))) s = 0 := by
  induction l with
  | nil => rfl
  | cons c l ih => simp only [List.map_cons, toolCallCount, List.filter_cons] at ih ⊢; simp [ht, ih]

theorem toolResultCount_map_tag_ne (l : List ChatEvent) {t : Option String}
    {s : String} (ht : t ≠ some s) :
    toolResultCount (l.map (fun c => (t, c))) s = 0 := by
  induction l with
  | nil => rfl
  | cons c l ih => simp only [List.map_cons, toolResultCount, List.filter_cons] at ih ⊢; simp [ht, ih]

theorem runChatStream_cons (seen : List (String × Bool)) (e : StreamEvent)
    (rest : List StreamEvent) :
    runChatStream seen (e :: rest) =
      (chatStep seen e).2.map (fun c => (tagOf e, c))
        ++ runChatStream (chatStep seen e).1 rest := by
  cases e <;> rfl

/-- Step characterization: a hosted event whose id is already marked emitted
sends at most a result and leaves the dict unchanged (chat.py lines 319-327). -/
theorem chatStep_hosted_seen_true {seen : List (String × Bool)}
    {h : HostedItem} {s : String} (hs : s ≠ "") (hid : h.id = some s)
    (hseen : dlookup seen s = some true) :
    chatStep seen (.hostedToolCall h) =
      (seen, if h.status = "completed" || h.status = "failed"
             then [.toolResult h.output] else []) := by
  simp [chatStep, hid, truthyId, hs, hseen]

/-- Step characterization: a not-yet-emitted hosted event with meaningful
arguments marks the id emitted and sends the call, plus a result if the
status is terminal (chat.py lines 329-346). -/
theorem chatStep_hosted_args {seen : List (String × Bool)}
    {h : HostedItem} {s : String} (hs : s ≠ "") (hid : h.id = some s)
    (hseen : dlookup seen s ≠ some true) (hargs : h.argsStr ≠ "") :
    chatStep seen (.hostedToolCall h) =
      (dinsert seen s true,
       [.toolCall ((dlookup hostedToolNames h.kind).getD "tool") h.argsStr
          "running"]
         ++ if h.status = "completed" || h.status = "failed"
            then [.toolResult h.output] else []) := by
  simp [chatStep, hid, truthyId, hs, hseen, hargs]

/-- Step characterization: a not-yet-emitted hosted event without meaningful
arguments records the id as seen-but-unsent and emits nothing (chat.py lines
347-350). -/
theorem chatStep_hosted_noargs {seen : List (String × Bool)}
    {h : HostedItem} {s : String} (hs : s ≠ "") (hid : h.id = some s)
    (hseen : dlookup seen s ≠ some true) (hargs : h.argsStr = "") :
    chatStep seen (.hostedToolCall h) = (dinsert seen s false, []) := by
  simp [chatStep, hid, truthyId, hs, hseen, hargs]

/-- Any step with a tag other than `some s` preserves the mark for `s`. -/
theorem chatStep_preserves_seen {seen : List (String × Bool)}
    {e : StreamEvent} {s : String} (hs : s ≠ "")
    (htag : tagOf e ≠ some s) (hseen : dlookup seen s = some true) :
    dlookup (chatStep seen e).1 s = some true := by
  cases e with
  | textDelta t => by_cases ht : t = "" <;> simpa [chatStep, ht] using hseen
  | reasoningDelta t => by_cases ht : t = "" <;> simpa [chatStep, ht] using hseen
  | functionToolCall n a => simpa [chatStep] using hseen
  | functionToolOutput o => simpa [chatStep] using hseen
  | hostedToolCall h =>
      have hid : h.id ≠ some s := htag
      have hkey : truthyId h.id = true → h.id.getD "" ≠ s := by
        intro htr hc
        cases hoid : h.id with
        | none => rw [hoid] at htr; simp [truthyId] at htr
        | some t =>
            rw [hoid] at hc
            simp at hc
            exact hid (by rw [hoid, hc])
      have hstate : ∀ b : Bool, dlookup
          (if truthyId h.id then dinsert seen (h.id.getD "") b else seen)
          s = some true := by
        intro b
        by_cases htr : truthyId h.id = true
        · rw [if_pos htr, dlookup_dinsert,
            if_neg (fun hc => hkey htr hc.symm)]
          exact hseen
        · rw [if_neg htr]; exact hseen
      rw [chatStep]
      by_cases hem : (if truthyId h.id then dlookup seen (h.id.getD "")
          else none) = some true
      · simpa [hem] using hseen
      · simp only [hem, if_neg, if_false]
        by_cases hargs : h.argsStr ≠ ""
        · simpa [hargs] using hstate true
        · simpa [hargs] using hstate false

/-- Any step with a tag other than `some s` emits no event attributed to `s`. -/
theorem chatStep_counts_tag_ne {seen : List (String × Bool)}
    {e : StreamEvent} {s : String} (htag : tagOf e ≠ some s) :
    toolCallCount ((chatStep seen e).2.map (fun c => (tagOf e, c))) s = 0 ∧
    toolResultCount ((chatStep seen e).2.map (fun c => (tagOf e, c))) s = 0 :=
  ⟨toolCallCount_map_tag_ne _ htag, toolResultCount_map_tag_ne _ htag⟩

/-- Once the dict marks id `s` as emitted, no later event of the stream can
emit another `tool_call` for `s` — the mark is permanent. -/
theorem toolCallCount_zero_of_seen :
    ∀ (events : List StreamEvent) (seen : List (String × Bool)) (s : String),
      s ≠ "" → dlookup seen s = some true →
      toolCallCount (runChatStream seen events) s = 0
  | [], _, _, _, _ => rfl
  | e :: rest, seen, s, hs, hseen => by
      rw [runChatStream_cons, toolCallCount_append]
      by_cases htag : tagOf e = some s
      · cases e with
        | hostedToolCall h =>
            have hid : h.id = some s := htag
            rw [chatStep_hosted_seen_true hs hid hseen]
            have hrest := toolCallCount_zero_of_seen rest seen s hs hseen
            by_cases hdone : (h.status = "completed" || h.status = "failed")
                = true
            · simpa [hdone, toolCallCount, isToolCallEvent] using hrest
            · simpa [hdone, toolCallCount] using hrest
        | textDelta t => simp [tagOf] at htag
        | reasoningDelta t => simp [tagOf] at htag
        | functionToolCall n a => simp [tagOf] at htag
        | functionToolOutput o => simp [tagOf] at htag
      · rw [(chatStep_counts_tag_ne htag).1,
          toolCallCount_zero_of_seen rest _ s hs
            (chatStep_preserves_seen hs htag hseen)]

/-- At most one `tool_call` is ever emitted for a given non-empty hosted item
id, whatever the stream. -/
theorem toolCallCount_le_one :
    ∀ (events : List StreamEvent) (seen : List (String × Bool)) (s : String),
      s ≠ "" → toolCallCount (runChatStream seen events) s ≤ 1
  | [], _, _, _ => Nat.zero_le 1
  | e :: rest, seen, s, hs => by
      by_cases hseen : dlookup seen s = some true
      · rw [toolCallCount_zero_of_seen (e :: rest) seen s hs hseen]
        exact Nat.zero_le 1
      · rw [runChatStream_cons, toolCallCount_append]
        by_cases htag : tagOf e = some s
        · cases e with
          | hostedToolCall h =>
              have hid : h.id = some s := htag
              by_cases hargs : h.argsStr = ""
              · rw [chatStep_hosted_noargs hs hid hseen hargs]
                simpa [toolCallCount] using
                  toolCallCount_le_one rest (dinsert seen s false) s hs
              · rw [chatStep_hosted_args hs hid hseen hargs]
                have hrest := toolCallCount_zero_of_seen rest
                  (dinsert seen s true) s hs (by rw [dlookup_dinsert]; simp)
                refine Nat.le_trans (Nat.add_le_add ?_ ?_)
                  (by omega : 1 + 0 ≤ 1)
                · by_cases hdone : (h.status = "completed"
                      || h.status = "failed") = true <;>
                    simp [hdone, toolCallCount, isToolCallEvent, tagOf, hid]
                · simpa using Nat.le_of_eq hrest
          | textDelta t => simp [tagOf] at htag
          | reasoningDelta t => simp [tagOf] at htag
          | functionToolCall n a => simp [tagOf] at htag
          | functionToolOutput o => simp [tagOf] at htag
        · rw [(chatStep_counts_tag_ne htag).1]
          simpa using toolCallCount_le_one rest (chatStep seen e).1 s hs

theorem terminalEventCount_cons (e : StreamEvent) (rest : List StreamEvent)
    (s : String) :
    terminalEventCount (e :: rest) s =
      (if isTerminalFor s e = true then 1 else 0) + terminalEventCount rest s := by
  rw [terminalEventCount, List.filter_cons]
  by_cases hp : isTerminalFor s e = true
  · simp [hp, terminalEventCount, Nat.add_comm]
  · simp [hp, terminalEventCount]

/-- Every `tool_result` for id `s` is emitted on a terminal-status event for
`s`, so results are bounded by the number of terminal-status events. -/
theorem toolResultCount_le_terminal :
    ∀ (events : List StreamEvent) (seen : List (String × Bool)) (s : String),
      s ≠ "" →
      toolResultCount (runChatStream seen events) s ≤ terminalEventCount events s
  | [], _, _, _ => Nat.le_refl 0
  | e :: rest, seen, s, hs => by
      rw [runChatStream_cons, toolResultCount_append, terminalEventCount_cons]
      have ihrest := toolResultCount_le_terminal rest (chatStep seen e).1 s hs
      by_cases htag : tagOf e = some s
      · cases e with
        | hostedToolCall h =>
            have hid : h.id = some s := htag
            have hterm : isTerminalFor s (.hostedToolCall h) =
                (h.status = "completed" || h.status = "failed") := by
              simp [isTerminalFor, hid, isTerminalStatus]
            by_cases hseen : dlookup seen s = some true
            · rw [chatStep_hosted_seen_true hs hid hseen] at ihrest ⊢
              refine Nat.add_le_add ?_ (by simpa using ihrest)
              by_cases hdone : (h.status = "completed"
                  || h.status = "failed") = true <;>
                simp [hdone, hterm, toolResultCount, isToolResultEvent,
                  tagOf, hid]
            · by_cases hargs : h.argsStr = ""
              · rw [chatStep_hosted_noargs hs hid hseen hargs] at ihrest ⊢
                refine Nat.add_le_add ?_ (by simpa using ihrest)
                simp [toolResultCount]
              · rw [chatStep_hosted_args hs hid hseen hargs] at ihrest ⊢
                refine Nat.add_le_add ?_ (by simpa using ihrest)
                by_cases hdone : (h.status = "completed"
                    || h.status = "failed") = true <;>
                  simp [hdone, hterm, toolResultCount, isToolResultEvent,
                    isToolCallEvent, tagOf, hid]
        | textDelta t => simp [tagOf] at htag
        | reasoningDelta t => simp [tagOf] at htag
        | functionToolCall n a => simp [tagOf] at htag
        | functionToolOutput o => simp [tagOf] at htag
      · rw [(chatStep_counts_tag_ne htag).2]
        have := Nat.add_le_add (Nat.zero_le
          (if isTerminalFor s e = true then 1 else 0)) ihrest
        omega

/-- A `tool_call` for a hosted item id is only emitted with a non-empty
(meaningful) argument string. -/
theorem toolCall_args_nonempty :
    ∀ (events : List StreamEvent) (seen : List (String × Bool)) (s : String),
      s ≠ "" → ∀ n a st,
      (some s, ChatEvent.toolCall n a st) ∈ runChatStream seen events → a ≠ ""
  | [], _, _, _, _, _, _, hmem => by simp [runChatStream] at hmem
  | e :: rest, seen, s, hs, n, a, st, hmem => by
      rw [runChatStream_cons] at hmem
      rcases List.mem_append.1 hmem with hmem | hmem
      · obtain ⟨c, hc, hpair⟩ := List.mem_map.1 hmem
        have htag : tagOf e = some s := (Prod.mk.injEq .. ▸ hpair).1
        have hcval : c = ChatEvent.toolCall n a st := (Prod.mk.injEq .. ▸ hpair).2
        cases e with
        | hostedToolCall h =>
            have hid : h.id = some s := htag
            by_cases hseen : dlookup seen s = some true
            · rw [chatStep_hosted_seen_true hs hid hseen] at hc
              by_cases hdone : (h.status = "completed"
                  || h.status = "failed") = true
              · rw [if_pos hdone] at hc
                rw [List.mem_singleton.1 hc] at hcval
                exact absurd hcval (by simp)
              · rw [if_neg hdone] at hc
                simp at hc
            · by_cases hargs : h.argsStr = ""
              · rw [chatStep_hosted_noargs hs hid hseen hargs] at hc
                simp at hc
              · rw [chatStep_hosted_args hs hid hseen hargs] at hc
                rcases List.mem_append.1 hc with hc | hc
                · rw [List.mem_singleton.1 hc] at hcval
                  have : a = h.argsStr := by
                    exact ((ChatEvent.toolCall.injEq .. ▸ hcval.symm).2).1
                  rw [this]
                  exact hargs
                · by_cases hdone : (h.status = "completed"
                      || h.status = "failed") = true
                  · rw [if_pos hdone] at hc
                    rw [List.mem_singleton.1 hc] at hcval
                    exact absurd hcval (by simp)
                  · rw [if_neg hdone] at hc
                    simp at hc
        | textDelta t => simp [tagOf] at htag
        | reasoningDelta t => simp [tagOf] at htag
        | functionToolCall n' a' => simp [tagOf] at htag
        | functionToolOutput o => simp [tagOf] at htag
      · exact toolCall_args_nonempty rest (chatStep seen e).1 s hs n a st hmem

/-- C4 (amended): within one chat turn, for each non-empty provider-issued
hosted item id the handler emits at most one `tool_call`, and only with a
non-empty (meaningful) extracted argument string; every `tool_result` for the
id is emitted on a terminal-status event, so at most one result is emitted
provided the stream delivers at most one terminal-status event for that id.
(Weakened from the claim: a stream carrying two terminal-status events for
the same id re-emits the result, see the counterexample.) -/
theorem c4_hosted_tool_dedup (events : List StreamEvent) (s : String)
    (hs : s ≠ "") :
    toolCallCount (chatTurnEmits events) s ≤ 1 ∧
    (∀ n a st, (some s, ChatEvent.toolCall n a st) ∈ chatTurnEmits events →
      a ≠ "") ∧
    toolResultCount (chatTurnEmits events) s ≤ terminalEventCount events s ∧
    (terminalEventCount events s ≤ 1 →
      toolResultCount (chatTurnEmits events) s ≤ 1) :=
  ⟨toolCallCount_le_one events [] s hs,
   fun n a st hmem => toolCall_args_nonempty events [] s hs n a st hmem,
   toolResultCount_le_terminal events [] s hs,
   fun hterm => Nat.le_trans (toolResultCount_le_terminal events [] s hs) hterm⟩

/-- A stream in which the provider reports a web search as in-progress
without arguments, then searching with a query, then completed: one
tool_call, one tool_result. -/
def c4WitnessEvents : List StreamEvent :=
  [StreamEvent.hostedToolCall
     { kind := "web_search_call", id := some "ws1", status := "in_progress",
       argsStr := "", output := "" },
   StreamEvent.hostedToolCall
     { kind := "web_search_call", id := some "ws1", status := "searching",
       argsStr := "query=q", output := "" },
   StreamEvent.hostedToolCall
     { kind := "web_search_call", id := some "ws1", status := "completed",
       argsStr := "query=q", output := "urls" }]

/-- Witness for C4 on a concrete well-behaved stream. -/
theorem c4_hosted_tool_dedup_witness :
    (("ws1" : String) ≠ "" ∧ terminalEventCount c4WitnessEvents "ws1" ≤ 1) ∧
    toolCallCount (chatTurnEmits c4WitnessEvents) "ws1" ≤ 1 ∧
    toolResultCount (chatTurnEmits c4WitnessEvents) "ws1" ≤ 1 :=
  ⟨⟨by decide, by decide⟩,
   (c4_hosted_tool_dedup c4WitnessEvents "ws1" (by decide)).1,
   (c4_hosted_tool_dedup c4WitnessEvents "ws1" (by decide)).2.2.2 (by decide)⟩

/-- A stream that reports the same hosted call as completed twice. -/
def c4DupEvents : List StreamEvent :=
  [StreamEvent.hostedToolCall
     { kind := "web_search_call", id := some "ws1", status := "completed",
       argsStr := "query=q", output := "urls" },
   StreamEvent.hostedToolCall
     { kind := "web_search_call", id := some "ws1", status := "completed",
       argsStr := "query=q", output := "urls" }]

/-- C4 counterexample: when the stream delivers two terminal-status events
for the same hosted item id, the handler emits the `tool_call` once but the
`tool_result` twice — "never emitted twice for the same id" fails as stated. -/
theorem c4_counterexample :
    toolCallCount (chatTurnEmits c4DupEvents) "ws1" = 1 ∧
    toolResultCount (chatTurnEmits c4DupEvents) "ws1" = 2 := by
  constructor
  · rfl
  · rfl

/-! ## Claims C1 and C2 — workspace merge properties -/

/-- A string without the `/` separator used by the collision renaming. -/
def slashFree (s : String) : Prop := '/' ∉ s.data

instance (s : String) : Decidable (slashFree s) := by
  unfold slashFree
  infer_instance

/-- A well-formed registry dict: keys are the entries' names (which is how
`register_agent` / `register_tool` key them) and keys are unique. -/
def WFDict {α : Type} (getName : α → String) (d : List (String × α)) : Prop :=
  (∀ kv ∈ d, getName kv.2 = kv.1) ∧ (d.map Prod.fst).Nodup

instance {α : Type} (getName : α → String) (d : List (String × α)) :
    Decidable (WFDict getName d) := by
  unfold WFDict
  infer_instance

theorem nodup_fst_eq {α : Type} {l : List (String × α)} {a b : String × α}
    (ha : a ∈ l) (hb : b ∈ l) (hnd : (l.map Prod.fst).Nodup)
    (hfst : a.1 = b.1) : a = b := by
  induction l with
  | nil => simp at ha
  | cons x l ih =>
      simp only [List.map_cons, List.nodup_cons] at hnd
      rcases List.mem_cons.1 ha with ha' | ha' <;>
        rcases List.mem_cons.1 hb with hb' | hb'
      · rw [ha', hb']
      · exfalso
        apply hnd.1
        rw [← ha', hfst]
        exact List.mem_map.2 ⟨b, hb', rfl⟩
      · exfalso
        apply hnd.1
        rw [← hb', ← hfst]
        exact List.mem_map.2 ⟨a, ha', rfl⟩
      · exact ih ha' hb' hnd.2

theorem find?_eq_some_of_unique {α : Type} {l : List α} {p : α → Bool} {a : α}
    (hmem : a ∈ l) (hp : p a = true) (huniq : ∀ x ∈ l, p x = true → x = a) :
    l.find? p = some a := by
  induction l with
  | nil => simp at hmem
  | cons x l ih =>
      by_cases hx : p x = true
      · rw [List.find?_cons_of_pos _ hx, huniq x (List.mem_cons_self _ _) hx]
      · rw [List.find?_cons_of_neg _ hx]
        rcases List.mem_cons.1 hmem with h | h
        · rw [h] at hp
          exact absurd hp hx
        · exact ih h fun y hy hpy => huniq y (List.mem_cons_of_mem _ hy) hpy

theorem dlookup_foldl_eq_some {α : Type} {pairs : List (String × α)}
    {k : String} {v : α} (hmem : (k, v) ∈ pairs)
    (huniq : ∀ p ∈ pairs, p.1 = k → p = (k, v)) :
    dlookup (pairs.foldl (fun acc p => dinsert acc p.1 p.2) []) k = some v := by
  rw [dlookup_foldl_dinsert]
  have hfind : pairs.reverse.find? (fun p => p.1 = k) = some (k, v) :=
    find?_eq_some_of_unique (List.mem_reverse.2 hmem) (by simp)
      fun x hx hpx => huniq x (List.mem_reverse.1 hx) (by simpa using hpx)
  rw [hfind]

theorem dlookup_foldl_eq_none {α : Type} {pairs : List (String × α)}
    {k : String} (h : ∀ p ∈ pairs, p.1 ≠ k) :
    dlookup (pairs.foldl (fun acc p => dinsert acc p.1 p.2) []) k = none := by
  rw [dlookup_foldl_dinsert]
  have hfind : pairs.reverse.find? (fun p => p.1 = k) = none :=
    List.find?_eq_none.2 fun x hx => by
      simpa using h x (List.mem_reverse.1 hx)
  rw [hfind]
  rfl

theorem slash_mem_concat (a b : String) : '/' ∈ (a ++ "/" ++ b).data := by
  rw [String.data_append, String.data_append]
  exact List.mem_append.2 (Or.inl (List.mem_append.2 (Or.inr (by decide))))

theorem concat_slash_inj {p1 n1 p2 n2 : String} (h1 : slashFree p1)
    (h2 : slashFree p2) (heq : p1 ++ "/" ++ n1 = p2 ++ "/" ++ n2) :
    p1 = p2 ∧ n1 = n2 := by
  have hd := congrArg String.data heq
  rw [String.data_append, String.data_append, String.data_append,
    String.data_append] at hd
  have hd' : p1.data ++ '/' :: n1.data = p2.data ++ '/' :: n2.data := by
    simpa using hd
  obtain ⟨ha, hb⟩ := append_sep_inj h1 h2 hd'
  exact ⟨string_data_inj ha, string_data_inj hb⟩

section MergeLemmas

variable {α : Type} (getName : α → String) (retag : α → String → String → α)

theorem originCount_pos_of_mem {ps : List (String × List (String × α))}
    {pd : String × List (String × α)} {kv : String × α} {n : String}
    (hpd : pd ∈ ps) (hkv : kv ∈ pd.2) (hn : getName kv.2 = n) :
    1 ≤ originCount getName n ps := by
  induction ps with
  | nil => simp at hpd
  | cons x rest ih =>
      obtain ⟨p, d⟩ := x
      rw [originCount]
      rcases List.mem_cons.1 hpd with h | h
      · have : kv ∈ d.filter (fun q => getName q.2 = n) := by
          apply List.mem_filter.2
          refine ⟨?_, by simp [hn]⟩
          rw [h] at hkv
          exact hkv
        have hlen : 0 < (d.filter (fun q => getName q.2 = n)).length :=
          List.length_pos.2 (List.ne_nil_of_mem this)
        omega
      · have := ih h
        omega

theorem originCount_exists_of_pos {ps : List (String × List (String × α))}
    {n : String} (h : 0 < originCount getName n ps) :
    ∃ pd ∈ ps, ∃ kv ∈ pd.2, getName kv.2 = n := by
  induction ps with
  | nil => simp [originCount] at h
  | cons x rest ih =>
      obtain ⟨p, d⟩ := x
      rw [originCount] at h
      by_cases hd : 0 < (d.filter (fun q => getName q.2 = n)).length
      · obtain ⟨kv, hkv⟩ := List.exists_mem_of_length_pos hd
        have := List.mem_filter.1 hkv
        exact ⟨(p, d), List.mem_cons_self _ _, kv, this.1, by simpa using this.2⟩
      · have : 0 < originCount getName n rest := by omega
        obtain ⟨pd, hpd, kv, hkv, hn⟩ := ih this
        exact ⟨pd, List.mem_cons_of_mem _ hpd, kv, hkv, hn⟩

theorem origin_unique_of_count_one {ps : List (String × List (String × α))}
    {n : String} (hone : originCount getName n ps = 1)
    {pd1 pd2 : String × List (String × α)} {kv1 kv2 : String × α}
    (hpd1 : pd1 ∈ ps) (hkv1 : kv1 ∈ pd1.2) (hn1 : getName kv1.2 = n)
    (hpd2 : pd2 ∈ ps) (hkv2 : kv2 ∈ pd2.2) (hn2 : getName kv2.2 = n) :
    pd1 = pd2 ∧ kv1 = kv2 := by
  induction ps with
  | nil => simp at hpd1
  | cons x rest ih =>
      obtain ⟨p, d⟩ := x
      rw [originCount] at hone
      rcases List.mem_cons.1 hpd1 with h1 | h1 <;>
        rcases List.mem_cons.1 hpd2 with h2 | h2
      · refine ⟨h1.trans h2.symm, ?_⟩
        have hm1 : kv1 ∈ d.filter (fun q => getName q.2 = n) := by
          apply List.mem_filter.2
          refine ⟨?_, by simp [hn1]⟩
          rw [h1] at hkv1
          exact hkv1
        have hm2 : kv2 ∈ d.filter (fun q => getName q.2 = n) := by
          apply List.mem_filter.2
          refine ⟨?_, by simp [hn2]⟩
          rw [h2] at hkv2
          exact hkv2
        have hlen : (d.filter (fun q => getName q.2 = n)).length = 1 := by
          have := List.length_pos.2 (List.ne_nil_of_mem hm1)
          omega
        obtain ⟨a, ha⟩ := List.length_eq_one.1 hlen
        rw [ha, List.mem_singleton] at hm1 hm2
        rw [hm1, hm2]
      · exfalso
        have hc1 : kv1 ∈ d.filter (fun q => getName q.2 = n) := by
          apply List.mem_filter.2
          refine ⟨?_, by simp [hn1]⟩
          rw [h1] at hkv1
          exact hkv1
        have hl1 : 0 < (d.filter (fun q => getName q.2 = n)).length :=
          List.length_pos.2 (List.ne_nil_of_mem hc1)
        have hl2 := originCount_pos_of_mem getName h2 hkv2 hn2
        omega
      · exfalso
        have hc2 : kv2 ∈ d.filter (fun q => getName q.2 = n) := by
          apply List.mem_filter.2
          refine ⟨?_, by simp [hn2]⟩
          rw [h2] at hkv2
          exact hkv2
        have hl2 : 0 < (d.filter (fun q => getName q.2 = n)).length :=
          List.length_pos.2 (List.ne_nil_of_mem hc2)
        have hl1 := originCount_pos_of_mem getName h1 hkv1 hn1
        omega
      · have hl1 := originCount_pos_of_mem getName h1 hkv1 hn1
        have hrest : originCount getName n rest = 1 := by omega
        exact ih hrest h1 h2

theorem mergeDict_colliding_bare {ps : List (String × List (String × α))}
    (H2 : ∀ pd ∈ ps, WFDict getName pd.2)
    (H3 : ∀ pd ∈ ps, slashFree pd.1 ∧ ∀ kv ∈ pd.2, slashFree kv.1)
    {n : String} (hcoll : collidingName getName ps n = true) :
    dlookup (mergeDict getName retag ps) n = none := by
  have hpos : 0 < originCount getName n ps := by
    have := of_decide_eq_true hcoll
    omega
  obtain ⟨pd0, hpd0, kv0, hkv0, hn0⟩ := originCount_exists_of_pos getName hpos
  have hkey0 : kv0.1 = n := by rw [← (H2 pd0 hpd0).1 kv0 hkv0, hn0]
  have hsf : slashFree n := hkey0 ▸ (H3 pd0 hpd0).2 kv0 hkv0
  simp only [mergeDict]
  apply dlookup_foldl_eq_none
  intro q hq
  obtain ⟨pd, hpd, hq2⟩ := List.mem_flatMap.1 hq
  obtain ⟨kv, hkv, hq3⟩ := List.mem_map.1 hq2
  by_cases hc : collidingName getName ps kv.1 = true
  · have hkey : q.1 = pd.1 ++ "/" ++ kv.1 := by rw [← hq3]; simp [hc]
    rw [hkey]
    intro hqn
    exact hsf (hqn ▸ slash_mem_concat pd.1 kv.1)
  · have hkey : q.1 = kv.1 := by rw [← hq3]; simp [hc]
    rw [hkey]
    intro hqn
    rw [hqn] at hc
    exact hc hcoll

theorem mergeDict_colliding_prefixed {ps : List (String × List (String × α))}
    (H1 : (ps.map Prod.fst).Nodup)
    (H2 : ∀ pd ∈ ps, WFDict getName pd.2)
    (H3 : ∀ pd ∈ ps, slashFree pd.1 ∧ ∀ kv ∈ pd.2, slashFree kv.1)
    {n : String} {e : α} {pd : String × List (String × α)}
    (hpd : pd ∈ ps) (hkv : (n, e) ∈ pd.2)
    (hcoll : collidingName getName ps n = true) :
    dlookup (mergeDict getName retag ps) (pd.1 ++ "/" ++ n) =
      some (retag e (pd.1 ++ "/" ++ n) pd.1) := by
  simp only [mergeDict]
  apply dlookup_foldl_eq_some
  · apply List.mem_flatMap.2
    refine ⟨pd, hpd, List.mem_map.2 ⟨(n, e), hkv, ?_⟩⟩
    simp [hcoll]
  · intro q hq hq1
    obtain ⟨pd', hpd', hq2⟩ := List.mem_flatMap.1 hq
    obtain ⟨kv', hkv', hq3⟩ := List.mem_map.1 hq2
    have hsfn : slashFree n := (H3 pd hpd).2 (n, e) hkv
    by_cases hc : collidingName getName ps kv'.1 = true
    · have hkey : q.1 = pd'.1 ++ "/" ++ kv'.1 := by rw [← hq3]; simp [hc]
      rw [hkey] at hq1
      obtain ⟨hpp, hnn⟩ :=
        concat_slash_inj (H3 pd' hpd').1 (H3 pd hpd).1 hq1
      have hpdeq : pd' = pd := nodup_fst_eq hpd' hpd H1 hpp
      have hkv'' : kv' ∈ pd.2 := by rw [← hpdeq]; exact hkv'
      have hkveq : kv' = (n, e) := nodup_fst_eq hkv'' hkv (H2 pd hpd).2 hnn
      rw [← hq3, hkveq, hpdeq]
      simp [hcoll]
    · exfalso
      have hkey : q.1 = kv'.1 := by rw [← hq3]; simp [hc]
      apply (H3 pd' hpd').2 kv' hkv'
      rw [hkey] at hq1
      rw [hq1]
      exact slash_mem_concat pd.1 n

theorem mergeDict_unique_bare {ps : List (String × List (String × α))}
    (H1 : (ps.map Prod.fst).Nodup)
    (H2 : ∀ pd ∈ ps, WFDict getName pd.2)
    (H3 : ∀ pd ∈ ps, slashFree pd.1 ∧ ∀ kv ∈ pd.2, slashFree kv.1)
    {n : String} {e : α} {pd : String × List (String × α)}
    (hpd : pd ∈ ps) (hkv : (n, e) ∈ pd.2)
    (hone : originCount getName n ps = 1) :
    dlookup (mergeDict getName retag ps) n = some (retag e n pd.1) := by
  have hcoll : collidingName getName ps n = false := by
    simp [collidingName, hone]
  simp only [mergeDict]
  apply dlookup_foldl_eq_some
  · apply List.mem_flatMap.2
    refine ⟨pd, hpd, List.mem_map.2 ⟨(n, e), hkv, ?_⟩⟩
    simp [hcoll]
  · intro q hq hq1
    obtain ⟨pd', hpd', hq2⟩ := List.mem_flatMap.1 hq
    obtain ⟨kv', hkv', hq3⟩ := List.mem_map.1 hq2
    have hsfn : slashFree n := (H3 pd hpd).2 (n, e) hkv
    by_cases hc : collidingName getName ps kv'.1 = true
    · exfalso
      have hkey : q.1 = pd'.1 ++ "/" ++ kv'.1 := by rw [← hq3]; simp [hc]
      rw [hkey] at hq1
      exact hsfn (hq1 ▸ slash_mem_concat pd'.1 kv'.1)
    · have hkey : q.1 = kv'.1 := by rw [← hq3]; simp [hc]
      have hkn : kv'.1 = n := by rw [← hkey, hq1]
      have hgn' : getName kv'.2 = n := by
        rw [(H2 pd' hpd').1 kv' hkv', hkn]
      have hgn : getName ((n, e) : String × α).2 = n := by
        have := (H2 pd hpd).1 (n, e) hkv
        simpa using this
      obtain ⟨hpdeq, hkveq⟩ := origin_unique_of_count_one getName hone
        hpd' hkv' hgn' hpd hkv hgn
      rw [← hq3, hkveq, hpdeq]
      simp [hcoll]

end MergeLemmas

/-- C2: for every workspace whose project directory names are distinct and
slash-free and whose per-project snapshots are well-formed registry dicts
with slash-free names (as `discover_project` produces), the merge renames
every colliding agent or tool name to `project_name/original_name`, leaves no
bare colliding key in the merged snapshot, and keeps the bare name as the key
for every name defined in exactly one project. -/
theorem c2_collision_renaming (ps : List (String × ProjectSnapshot))
    (H1 : (ps.map Prod.fst).Nodup)
    (H2 : ∀ pd ∈ ps, WFDict AgentEntry.name pd.2.agents ∧
      WFDict ToolEntry.name pd.2.tools)
    (H3 : ∀ pd ∈ ps, slashFree pd.1 ∧ (∀ kv ∈ pd.2.agents, slashFree kv.1) ∧
      (∀ kv ∈ pd.2.tools, slashFree kv.1)) :
    ((∀ n, collidingName AgentEntry.name (agentDicts ps) n = true →
        dlookup (discover_all_projects ps).agents n = none) ∧
     (∀ pd ∈ ps, ∀ n e, (n, e) ∈ pd.2.agents →
        collidingName AgentEntry.name (agentDicts ps) n = true →
        dlookup (discover_all_projects ps).agents (pd.1 ++ "/" ++ n) =
          some (retagAgent e (pd.1 ++ "/" ++ n) pd.1)) ∧
     (∀ pd ∈ ps, ∀ n e, (n, e) ∈ pd.2.agents →
        originCount AgentEntry.name n (agentDicts ps) = 1 →
        dlookup (discover_all_projects ps).agents n =
          some (retagAgent e n pd.1))) ∧
    ((∀ n, collidingName ToolEntry.name (toolDicts ps) n = true →
        dlookup (discover_all_projects ps).tools n = none) ∧
     (∀ pd ∈ ps, ∀ n e, (n, e) ∈ pd.2.tools →
        collidingName ToolEntry.name (toolDicts ps) n = true →
        dlookup (discover_all_projects ps).tools (pd.1 ++ "/" ++ n) =
          some (retagTool e (pd.1 ++ "/" ++ n) pd.1)) ∧
     (∀ pd ∈ ps, ∀ n e, (n, e) ∈ pd.2.tools →
        originCount ToolEntry.name n (toolDicts ps) = 1 →
        dlookup (discover_all_projects ps).tools n =
          some (retagTool e n pd.1))) := by
  have hA1 : ((agentDicts ps).map Prod.fst).Nodup := by
    simpa [agentDicts, List.map_map, Function.comp] using H1
  have hT1 : ((toolDicts ps).map Prod.fst).Nodup := by
    simpa [toolDicts, List.map_map, Function.comp] using H1
  have hA2 : ∀ pd ∈ agentDicts ps, WFDict AgentEntry.name pd.2 := by
    intro pd hpd
    obtain ⟨q, hq, rfl⟩ := List.mem_map.1 hpd
    exact (H2 q hq).1
  have hT2 : ∀ pd ∈ toolDicts ps, WFDict ToolEntry.name pd.2 := by
    intro pd hpd
    obtain ⟨q, hq, rfl⟩ := List.mem_map.1 hpd
    exact (H2 q hq).2
  have hA3 : ∀ pd ∈ agentDicts ps,
      slashFree pd.1 ∧ ∀ kv ∈ pd.2, slashFree kv.1 := by
    intro pd hpd
    obtain ⟨q, hq, rfl⟩ := List.mem_map.1 hpd
    exact ⟨(H3 q hq).1, (H3 q hq).2.1⟩
  have hT3 : ∀ pd ∈ toolDicts ps,
      slashFree pd.1 ∧ ∀ kv ∈ pd.2, slashFree kv.1 := by
    intro pd hpd
    obtain ⟨q, hq, rfl⟩ := List.mem_map.1 hpd
    exact ⟨(H3 q hq).1, (H3 q hq).2.2⟩
  refine ⟨⟨?_, ?_, ?_⟩, ?_, ?_, ?_⟩
  · intro n hc
    exact mergeDict_colliding_bare AgentEntry.name retagAgent hA2 hA3 hc
  · intro pd hpd n e hkv hc
    exact mergeDict_colliding_prefixed AgentEntry.name retagAgent hA1 hA2 hA3
      (List.mem_map.2 ⟨pd, hpd, rfl⟩) hkv hc
  · intro pd hpd n e hkv hone
    exact mergeDict_unique_bare AgentEntry.name retagAgent hA1 hA2 hA3
      (List.mem_map.2 ⟨pd, hpd, rfl⟩) hkv hone
  · intro n hc
    exact mergeDict_colliding_bare ToolEntry.name retagTool hT2 hT3 hc
  · intro pd hpd n e hkv hc
    exact mergeDict_colliding_prefixed ToolEntry.name retagTool hT1 hT2 hT3
      (List.mem_map.2 ⟨pd, hpd, rfl⟩) hkv hc
  · intro pd hpd n e hkv hone
    exact mergeDict_unique_bare ToolEntry.name retagTool hT1 hT2 hT3
      (List.mem_map.2 ⟨pd, hpd, rfl⟩) hkv hone

/-- The spec's collision scenario: two projects both defining agent `"A"`;
`proj1` also has a tool `"t1"` that no other project defines. -/
def c2Ps : List (String × ProjectSnapshot) :=
  [("proj1", { agents := [("A", { name := "A" })],
               tools := [("t1", { name := "t1" })] }),
   ("proj2", { agents := [("A", { name := "A" })], tools := [] })]

/-- Witness for C2 on the spec's example: the colliding agent `"A"` is gone
as a bare key, appears under `proj1/A` and `proj2/A`, and the non-colliding
tool `"t1"` keeps its bare key. -/
theorem c2_collision_renaming_witness :
    ((c2Ps.map Prod.fst).Nodup ∧
     (∀ pd ∈ c2Ps, WFDict AgentEntry.name pd.2.agents ∧
        WFDict ToolEntry.name pd.2.tools) ∧
     (∀ pd ∈ c2Ps, slashFree pd.1 ∧ (∀ kv ∈ pd.2.agents, slashFree kv.1) ∧
        (∀ kv ∈ pd.2.tools, slashFree kv.1))) ∧
    dlookup (discover_all_projects c2Ps).agents "A" = none ∧
    dlookup (discover_all_projects c2Ps).agents ("proj1" ++ "/" ++ "A") =
      some (retagAgent { name := "A" } ("proj1" ++ "/" ++ "A") "proj1") ∧
    dlookup (discover_all_projects c2Ps).agents ("proj2" ++ "/" ++ "A") =
      some (retagAgent { name := "A" } ("proj2" ++ "/" ++ "A") "proj2") ∧
    dlookup (discover_all_projects c2Ps).tools "t1" =
      some (retagTool { name := "t1" } "t1" "proj1") :=
  ⟨⟨by decide, by decide, by decide⟩,
   (c2_collision_renaming c2Ps (by decide) (by decide) (by decide)).1.1 "A"
     (by decide),
   (c2_collision_renaming c2Ps (by decide) (by decide) (by decide)).1.2.1
     ("proj1", { agents := [("A", { name := "A" })],
                 tools := [("t1", { name := "t1" })] })
     (by decide) "A" { name := "A" } (by decide) (by decide),
   (c2_collision_renaming c2Ps (by decide) (by decide) (by decide)).1.2.1
     ("proj2", { agents := [("A", { name := "A" })], tools := [] })
     (by decide) "A" { name := "A" } (by decide) (by decide),
   (c2_collision_renaming c2Ps (by decide) (by decide) (by decide)).2.2.2
     ("proj1", { agents := [("A", { name := "A" })],
                 tools := [("t1", { name := "t1" })] })
     (by decide) "t1" { name := "t1" } (by decide) (by decide)⟩

/-- The registry-level form of the snapshot-consistency invariant, plus the
key/name well-formedness that `register_tool` maintains. -/
def regConsistent (reg : AgentRegistry) : Prop :=
  (∀ kv ∈ reg.agents, ∀ t ∈ kv.2.tools,
    ((dlookup reg.tools t).isSome || strStartsWith t "builtin:") = true) ∧
  (∀ kv ∈ reg.tools, kv.2.name = kv.1)

theorem dlookup_isSome_dinsert {α : Type} {d : List (String × α)}
    {key k : String} {v : α} (h : (dlookup d key).isSome = true) :
    (dlookup (dinsert d k v) key).isSome = true := by
  rw [dlookup_dinsert]
  by_cases hk : key = k <;> simp [hk, h]

theorem strStartsWith_append (pre s : String) :
    strStartsWith (pre ++ s) pre = true := by
  rw [strStartsWith, String.data_append]
  exact List.isPrefixOf_iff_prefix.2 (List.prefix_append _ _)

/-- Names returned by a successful `get_tools` are keys of the registry's
tools dict. -/
theorem get_tools_sound {reg : AgentRegistry}
    (hwf : ∀ kv ∈ reg.tools, kv.2.name = kv.1) :
    ∀ {names tns : List String}, get_tools reg names = .ok tns →
      ∀ t ∈ tns, (dlookup reg.tools t).isSome = true := by
  intro names
  induction names with
  | nil =>
      intro tns h t ht
      simp only [get_tools] at h
      cases h
      simp at ht
  | cons n rest ih =>
      intro tns h t ht
      rw [get_tools] at h
      rcases hlook : reg.get_tool n with _ | entry
      · rw [hlook] at h
        cases h
      · rw [hlook] at h
        rcases hrest : get_tools reg rest with e | others
        · rw [hrest] at h
          cases h
        · rw [hrest] at h
          cases h
          rcases List.mem_cons.1 ht with h' | h'
          · have hmem := dlookup_mem (hlook : dlookup reg.tools n = some entry)
            have hname : entry.name = n := hwf (n, entry) hmem
            rw [h', hname]
            rw [AgentRegistry.get_tool] at hlook
            simp [hlook]
          · exact ih hrest t h'

/-- Running registration commands preserves the consistency invariant. -/
theorem runCmds_consistent :
    ∀ (cmds : List RegistrationCmd) (reg reg' : AgentRegistry),
      runCmds reg cmds = (reg', none) → regConsistent reg → regConsistent reg'
  | [], reg, reg', h, hinv => by
      rw [runCmds] at h
      cases h
      exact hinv
  | c :: rest, reg, reg', h, hinv => by
      rw [runCmds] at h
      rcases hc : runCmd reg c with e | reg1
      · rw [hc] at h
        cases h
      · rw [hc] at h
        refine runCmds_consistent rest reg1 reg' h ?_
        cases c with
        | registerTool entry =>
            rw [runCmd] at hc
            cases hc
            constructor
            · intro kv hkv t ht
              have hor := hinv.1 kv hkv t ht
              rw [Bool.or_eq_true] at hor
              rw [Bool.or_eq_true]
              rcases hor with h' | h'
              · exact Or.inl (dlookup_isSome_dinsert h')
              · exact Or.inr h'
            · intro kv hkv
              rcases mem_dinsert hkv with h' | h'
              · exact hinv.2 kv h'
              · rw [h']
            | defineAgent name instructions model toolRefs builtins =>
            rw [runCmd] at hc
            rcases hgt : get_tools reg toolRefs with e | tns
            · rw [hgt] at hc
              cases hc
            · rw [hgt] at hc
              cases hc
              constructor
              · intro kv hkv t ht
                rcases mem_dinsert hkv with h' | h'
                · exact hinv.1 kv h' t ht
                · rw [h'] at ht
                  rw [Bool.or_eq_true]
                  rcases List.mem_append.1 ht with h'' | h''
                  · exact Or.inl (get_tools_sound hinv.2 hgt t h'')
                  · obtain ⟨b, _, rfl⟩ := List.mem_map.1 h''
                    exact Or.inr (strStartsWith_append "builtin:" b)
              · exact hinv.2

/-- C1 (amended): every snapshot produced by `discover_project` — agents
defined through `define_agent` with `get_tools` references and builtin-tool
markers — satisfies the internal-consistency invariant; and
`discover_all_projects` preserves it provided no tool name referenced by an
agent collides across projects.  (Weakened from the claim: the collision
renaming rewrites tool dict keys but not the agents' tool-reference lists, so
a colliding referenced tool name breaks the invariant in the merged snapshot,
see the counterexample.) -/
theorem c1_snapshot_consistency :
    (∀ (reg : AgentRegistry) (proj : ProjectModel) (snap : ProjectSnapshot)
        (reg' : AgentRegistry),
      discover_project reg proj = (.ok snap, reg') →
      snapshotConsistent snap = true) ∧
    (∀ ps : List (String × ProjectSnapshot),
      (∀ pd ∈ ps, snapshotConsistent pd.2 = true) →
      (∀ pd ∈ ps, ∀ kv ∈ pd.2.agents, ∀ t ∈ kv.2.tools,
        strStartsWith t "builtin:" = false →
        collidingName ToolEntry.name (toolDicts ps) t = false) →
      snapshotConsistent (discover_all_projects ps) = true) := by
  constructor
  · intro reg proj snap reg' h
    rw [discover_project] at h
    by_cases hcfg : proj.configOk
    · rw [if_neg (by simpa using hcfg)] at h
      by_cases hent : proj.entryExists
      · rw [if_neg (by simpa using hent)] at h
        rcases hrun : runCmds reg.clear proj.cmds with ⟨reg1, err⟩
        rcases err with _ | e
        · rw [hrun] at h
          obtain ⟨hsnap, _⟩ := Prod.mk.injEq .. ▸ h
          have hclear : regConsistent reg.clear := by
            constructor
            · intro kv hkv
              simp [AgentRegistry.clear] at hkv
            · intro kv hkv
              simp [AgentRegistry.clear] at hkv
          have hinv := runCmds_consistent proj.cmds reg.clear reg1 hrun hclear
          have hs : snap = { reg1.get_project_snapshot with config := proj.config } :=
            (Except.ok.injEq .. ▸ hsnap).symm
          rw [hs]
          apply List.all_eq_true.2
          intro kv hkv
          apply List.all_eq_true.2
          intro t ht
          exact hinv.1 kv hkv t ht
        · rw [hrun] at h
          cases (Prod.mk.injEq .. ▸ h).1
      · rw [if_pos (by simpa using hent)] at h
        cases (Prod.mk.injEq .. ▸ h).1
    · rw [if_pos (by simpa using hcfg)] at h
      cases (Prod.mk.injEq .. ▸ h).1
  · intro ps hcons hnc
    apply List.all_eq_true.2
    intro kv hkv
    apply List.all_eq_true.2
    intro t ht
    have hkv1 : kv ∈ mergedPairs AgentEntry.name retagAgent (agentDicts ps) := by
      have hkv0 : kv ∈ (mergedPairs AgentEntry.name retagAgent
          (agentDicts ps)).foldl (fun acc p => dinsert acc p.1 p.2) [] := hkv
      rcases mem_foldl_dinsert hkv0 with h | h
      · simp at h
      · exact h
    obtain ⟨pd, hpd, hq2⟩ := List.mem_flatMap.1 hkv1
    obtain ⟨kv0, hkv0, hq3⟩ := List.mem_map.1 hq2
    obtain ⟨q, hq, hpdq⟩ := List.mem_map.1 hpd
    by_cases hb : strStartsWith t "builtin:" = true
    · simp [hb]
    · have hb' : strStartsWith t "builtin:" = false := by simpa using hb
      have ht0 : t ∈ kv0.2.tools := by
        rw [← hq3] at ht
        exact ht
      have hkva : kv0 ∈ q.2.agents := by
        rw [← hpdq] at hkv0
        exact hkv0
      have hiso := List.all_eq_true.1 (hcons q hq) kv0 hkva
      have hone := List.all_eq_true.1 hiso t ht0
      have hsome : (dlookup q.2.tools t).isSome = true := by
        rw [Bool.or_eq_true] at hone
        rcases hone with h' | h'
        · exact h'
        · rw [h'] at hb'
          cases hb'
      have hnct := hnc q hq kv0 hkva t ht0 hb'
      rcases hlt : dlookup q.2.tools t with _ | te
      · rw [hlt] at hsome
        cases hsome
      · have hmt : (t, te) ∈ q.2.tools := dlookup_mem hlt
        have hpair : (t, retagTool te t q.1) ∈
            mergedPairs ToolEntry.name retagTool (toolDicts ps) := by
          apply List.mem_flatMap.2
          refine ⟨(q.1, q.2.tools), List.mem_map.2 ⟨q, hq, rfl⟩,
            List.mem_map.2 ⟨(t, te), hmt, ?_⟩⟩
          simp [hnct]
        have hsome2 := dlookup_foldl_isSome (d := []) hpair
        simp only [discover_all_projects, mergeDict]
        simp [hsome2]

/-- A project whose entry file defines one tool and one agent wired to it by
name plus a hosted builtin tool. -/
def c1Proj : ProjectModel :=
  { cmds :=
      [RegistrationCmd.registerTool
         { name := "greet", description := "Greet someone by name." },
       RegistrationCmd.defineAgent "Greeter" (some "You greet people.")
         (some "gpt-5.2") ["greet"] ["web_search"]] }

/-- The snapshot `discover_project` produces for `c1Proj`. -/
def c1WitnessSnap : ProjectSnapshot :=
  { agents := [("Greeter",
      { name := "Greeter", instructions := some "You greet people.",
        model := some "gpt-5.2", tools := ["greet", "builtin:web_search"] })],
    tools := [("greet",
      { name := "greet", description := "Greet someone by name." })] }

/-- The registry state after discovering `c1Proj`. -/
def c1WitnessReg : AgentRegistry :=
  { agents := c1WitnessSnap.agents, tools := c1WitnessSnap.tools }

/-- Witness for C1: a concrete single-project discovery whose snapshot the
theorem certifies as internally consistent. -/
theorem c1_snapshot_consistency_witness :
    discover_project {} c1Proj = (.ok c1WitnessSnap, c1WitnessReg) ∧
    snapshotConsistent c1WitnessSnap = true :=
  ⟨by rfl,
   c1_snapshot_consistency.1 {} c1Proj c1WitnessSnap c1WitnessReg (by rfl)⟩

/-- A project registering tool `greet` and agent `A1` referencing it. -/
def c1Proj1 : ProjectModel :=
  { cmds :=
      [RegistrationCmd.registerTool { name := "greet" },
       RegistrationCmd.defineAgent "A1" none none ["greet"] []] }

/-- A second project also registering tool `greet`, agent `A2`. -/
def c1Proj2 : ProjectModel :=
  { cmds :=
      [RegistrationCmd.registerTool { name := "greet" },
       RegistrationCmd.defineAgent "A2" none none ["greet"] []] }

/-- Snapshot of `c1Proj1`. -/
def c1Snap1 : ProjectSnapshot :=
  { agents := [("A1", { name := "A1", tools := ["greet"] })],
    tools := [("greet", { name := "greet" })] }

/-- Snapshot of `c1Proj2`. -/
def c1Snap2 : ProjectSnapshot :=
  { agents := [("A2", { name := "A2", tools := ["greet"] })],
    tools := [("greet", { name := "greet" })] }

/-- C1 counterexample: two individually consistent snapshots produced by
`discover_project` merge — via `discover_all_projects` — into a snapshot that
violates the invariant: the colliding tool `greet` is renamed to `p1/greet`
and `p2/greet` in the tools mapping, but agent `A1` still references bare
`greet`, which is neither a tools key nor a `builtin:` marker. -/
theorem c1_counterexample :
    (discover_project {} c1Proj1).1 = .ok c1Snap1 ∧
    (discover_project {} c1Proj2).1 = .ok c1Snap2 ∧
    snapshotConsistent c1Snap1 = true ∧
    snapshotConsistent c1Snap2 = true ∧
    snapshotConsistent
      (discover_all_projects [("p1", c1Snap1), ("p2", c1Snap2)]) = false ∧
    dlookup (discover_all_projects
        [("p1", c1Snap1), ("p2", c1Snap2)]).agents "A1" =
      some { name := "A1", tools := ["greet"], project := some "p1" } ∧
    dlookup (discover_all_projects
        [("p1", c1Snap1), ("p2", c1Snap2)]).tools "greet" = none :=
  ⟨by rfl, by rfl, by rfl, by rfl, by rfl, by rfl, by rfl⟩

end Klisk
